import Mathlib

/-!
# Verification of the sqlitefs fragmented file store

This development is a shallow embedding of the `jilio/sqlitefs` Go package:
a filesystem stored in two SQLite tables, `file_metadata(id, path, type)`
and `file_fragments(file_id, fragment_index, fragment)`.  Files are split
into fragments of `fragmentSize = 16384` bytes.

Modelling conventions:
* Go strings (paths) are modelled as `List Char`; Go byte slices as
  `List Nat`.
* The database is a `Store`: the `file_metadata` rows in rowid order, the
  `file_fragments` rows in rowid order, and the next AUTOINCREMENT id.
* SQL queries are modelled by their SQLite semantics on a `Store`.
  `LIKE 'prefix%'` is modelled as string-prefix matching (the patterns
  built by the code end in `%` and the stored paths exercised here contain
  no other wildcard characters).
* Go code that reads a `*sql.DB` never fails in this model except where an
  explicit error schedule is supplied: the writer takes an oracle
  (`List Bool`, one entry per fragment-commit attempt, `false` meaning the
  commit fails) and the reader takes an error schedule (`List Bool`, one
  entry per fragment query, `true` meaning the query fails with a storage
  error).  An empty schedule means no injected failures.
-/

/-- Fragment size: `const fragmentSize = 16 * 1024` in the Go source. -/
def fragmentSize : Nat := 16 * 1024

/-- A Go string (file path), modelled as its character list. -/
abbrev GoStr := List Char

/-- `strings.HasSuffix(p, "/")` specialised to the one-character suffix the
code uses: does the path end in a slash? -/
def endsSlash (p : GoStr) : Bool := p.getLast? == some '/'

/-- The directory test in `NewSQLiteFile`:
`path == "" || path == "/" || path[len(path)-1] == '/'`. -/
def isDirPath (p : GoStr) : Bool := p == [] || p == ['/'] || endsSlash p

/-- `strings.TrimSuffix(p, "/")`: drop one trailing slash when present. -/
def trimSuffixSlash (p : GoStr) : GoStr :=
  if endsSlash p then p.dropLast else p

/-- `strings.TrimPrefix(pre, p)`: drop `pre` from the front when it is a
prefix, otherwise return `p` unchanged. -/
def trimPre (pre p : GoStr) : GoStr :=
  if pre.isPrefixOf p then p.drop pre.length else p

/-- `strings.SplitN(p, "/", 2)`: the segment before the first slash, and
`some rest` when a slash occurs (`parts` has two elements) or `none` when
it does not. -/
def splitFirst : GoStr → GoStr × Option GoStr
  | [] => ([], none)
  | c :: rest =>
    if c == '/' then ([], some rest)
    else
      let r := splitFirst rest
      (c :: r.1, r.2)

/-- Strip all trailing slashes, as the first step of `filepath.Base`. -/
def dropTrailingSlashes (p : GoStr) : GoStr :=
  (p.reverse.dropWhile (fun c => c == '/')).reverse

/-- `filepath.Base`: `"."` for the empty path, `"/"` for an all-slash path,
otherwise everything after the last slash once trailing slashes are
removed. -/
def filepathBase (p : GoStr) : GoStr :=
  if p == [] then ['.']
  else
    let q := dropTrailingSlashes p
    if q == [] then ['/']
    else (q.reverse.takeWhile (fun c => !(c == '/'))).reverse

/-- One row of `file_metadata`: `id INTEGER PRIMARY KEY AUTOINCREMENT`,
`path TEXT UNIQUE`, `type TEXT` (the writer stores the resolved MIME type
in the `type` column). -/
structure FileMeta where
  id : Nat
  path : GoStr
  type : GoStr
deriving DecidableEq, Repr

/-- One row of `file_fragments`: `(file_id, fragment_index, fragment)` with
primary key `(file_id, fragment_index)`. -/
structure FragRow where
  fileId : Nat
  index : Nat
  data : List Nat
deriving DecidableEq, Repr

/-- The database state: both tables in rowid (scan) order, plus the next
AUTOINCREMENT id for `file_metadata`. -/
structure Store where
  metas : List FileMeta
  frags : List FragRow
  nextId : Nat
deriving DecidableEq, Repr

/-- A database with no rows. -/
def emptyStore : Store := ⟨[], [], 0⟩

/-- `SELECT id FROM file_metadata WHERE path = ?` (`path` is UNIQUE, the
first matching row is the row). -/
def Store.lookupId (s : Store) (p : GoStr) : Option Nat :=
  (s.metas.find? (fun m => m.path == p)).map (fun m => m.id)

/-- `SELECT EXISTS(SELECT 1 FROM file_metadata WHERE path = ?)`. -/
def Store.pathExists (s : Store) (p : GoStr) : Bool :=
  s.metas.any (fun m => m.path == p)

/-- The `file_fragments` rows of one file, in scan order. -/
def fragRowsOf (s : Store) (fid : Nat) : List FragRow :=
  s.frags.filter (fun r => r.fileId == fid)

/-- `SELECT fragment FROM file_fragments WHERE file_id = (SELECT id FROM
file_metadata WHERE path = ?) AND fragment_index = ?`.  A missing metadata
row makes the subselect NULL, so no fragment row matches. -/
def findFrag (s : Store) (p : GoStr) (idx : Nat) : Option (List Nat) :=
  match s.lookupId p with
  | none => none
  | some fid =>
    (s.frags.find? (fun r => r.fileId == fid && r.index == idx)).map
      (fun r => r.data)

/-- `INSERT OR REPLACE INTO file_fragments`: the row with the conflicting
`(file_id, fragment_index)` key, if any, is deleted and the fresh row is
appended with a new rowid. -/
def Store.insertFrag (s : Store) (fid idx : Nat) (d : List Nat) : Store :=
  { s with
    frags := s.frags.filter (fun r => !(r.fileId == fid && r.index == idx))
      ++ [⟨fid, idx, d⟩] }

/-- `INSERT OR REPLACE INTO file_metadata (path, type) VALUES (?, ?)`: the
row with the conflicting UNIQUE `path`, if any, is deleted and a fresh row
with the next AUTOINCREMENT id is appended. -/
def Store.insertMeta (s : Store) (p t : GoStr) : Store :=
  { s with
    metas := s.metas.filter (fun m => !(m.path == p)) ++ [⟨s.nextId, p, t⟩],
    nextId := s.nextId + 1 }

/-- `SELECT SUM(LENGTH(fragment)) FROM file_fragments WHERE file_id =
(SELECT id FROM file_metadata WHERE path = ?)`, with the `sql.NullInt64`
NULL (no rows, or missing file) treated as 0 by the caller. -/
def sumFragLen (s : Store) (p : GoStr) : Nat :=
  match s.lookupId p with
  | none => 0
  | some fid => ((fragRowsOf s fid).map (fun r => r.data.length)).sum

/-- `SELECT COALESCE(SUM(LENGTH(fragment)), 0) FROM file_fragments WHERE
file_id = ?`. -/
def sumLenById (s : Store) (fid : Nat) : Nat :=
  ((fragRowsOf s fid).map (fun r => r.data.length)).sum

/-- The row of maximal `fragment_index` among a list of fragment rows.
This models which row SQLite draws the bare `LENGTH(fragment)` column from
in `getTotalSize`: the scan follows the `(file_id, fragment_index)`
primary-key index, so the value comes from the highest-index row (the
repository's own integration tests pin this behaviour). -/
def maxIndexFrag (rows : List FragRow) : Option FragRow :=
  rows.foldl
    (fun acc r =>
      match acc with
      | none => some r
      | some a => if a.index < r.index then some r else some a)
    none

/-- The length of the highest-index fragment, or 0 when there is none
(`COALESCE(LENGTH(fragment), 0)`). -/
def lastFragLen (rows : List FragRow) : Nat :=
  match maxIndexFrag rows with
  | none => 0
  | some r => r.data.length

/-- `SQLiteFile.getTotalSize`.  The Go code runs
`SELECT COUNT(*), COALESCE(LENGTH(fragment), 0) FROM file_fragments WHERE
file_id = (SELECT id FROM file_metadata WHERE path = ?) ORDER BY
fragment_index DESC LIMIT 1` and computes
`(count-1)*fragmentSize + lastFragmentSize` unless `count == 0`, in which
case it returns 0.  An aggregate query without GROUP BY always returns
exactly one row in SQLite (with `COUNT(*) = 0` and a NULL bare column when
no rows match), so the Go branch that handles `sql.ErrNoRows` — falling
back to an existence check on `file_metadata` and `os.ErrNotExist` — is
unreachable with the SQLite driver and the embedded function is total. -/
def getTotalSize (s : Store) (p : GoStr) : Nat :=
  let rows := match s.lookupId p with
              | none => []
              | some fid => fragRowsOf s fid
  let count := rows.length
  let lastFragmentSize := lastFragLen rows
  if count = 0 then 0 else (count - 1) * fragmentSize + lastFragmentSize

/-- The state of an open `SQLiteFile` handle: the path, the read offset,
the size cached at open time, and the directory flag.  (The Go struct also
carries a `mimeType` string; the query that loads it names a `mime_type`
column that the schema created by `createTablesIfNeeded` does not have, the
resulting error is ignored, and nothing verified here reads the field, so
it is omitted.) -/
structure SQLiteFile where
  path : GoStr
  offset : Nat
  size : Nat
  isDir : Bool
deriving DecidableEq, Repr

/-- `NewSQLiteFile`: classify the path, and for a file compute the size
once via `getTotalSize`.  Offsets start at 0 and never become negative
(initialised to 0, increased by reads, and `Seek` rejects negative
results), so the `int64` offset is modelled as `Nat`. -/
def newSQLiteFile (s : Store) (p : GoStr) : SQLiteFile :=
  let isDir := isDirPath p
  { path := p, offset := 0,
    size := if isDir then 0 else getTotalSize s p,
    isDir := isDir }

/-- The error outcomes of `SQLiteFile.Read`: `io.EOF`, or an underlying
storage error. -/
inductive RErr where
  | eof
  | storage
deriving DecidableEq, Repr

/-- The result of one `Read` call: the updated handle, the bytes copied
into the caller's buffer, and the returned error (if any).  The Go call
returns the byte count; here the copied bytes themselves are returned, the
count being their length. -/
structure ReadRes where
  file : SQLiteFile
  bytes : List Nat
  err : Option RErr
deriving DecidableEq, Repr

/-- The fragment-read loop of `SQLiteFile.Read` (file.go).  `plen` is
`len(p)`, `acc` the bytes copied so far in this call (`bytesReadTotal =
acc.length`), and `errs` the storage-error schedule, one entry consumed per
fragment query.  Each iteration:
* computes `fragmentIndex = offset / fragmentSize`,
  `internalOffset = offset % fragmentSize`, and
  `readLength = min(fragmentSize - internalOffset, len(p) - total)`;
* returns at end of file (`EOF` when nothing was read in this call);
* runs `SELECT SUBSTR(fragment, internalOffset+1, readLength) ...`:
  an injected failure surfaces the storage error with the bytes so far;
  `sql.ErrNoRows` returns the bytes so far (plain `EOF` when none);
* copies `min(len(fragment), len(p) - total)` bytes and advances the
  offset; a zero-byte copy skips to the next fragment boundary to avoid
  looping on an empty fragment row; a full buffer ends the call. -/
def readLoop (s : Store) (errs : List Bool) (f : SQLiteFile) (plen : Nat)
    (acc : List Nat) : ReadRes :=
  let fragmentIndex := f.offset / fragmentSize
  let internalOffset := f.offset % fragmentSize
  let readLength := min (fragmentSize - internalOffset) (plen - acc.length)
  if f.size ≤ f.offset then
    if acc.length = 0 then ⟨f, acc, some .eof⟩ else ⟨f, acc, none⟩
  else if errs.headD false then ⟨f, acc, some .storage⟩
  else
    match findFrag s f.path fragmentIndex with
    | none =>
      if 0 < acc.length then ⟨f, acc, none⟩ else ⟨f, acc, some .eof⟩
    | some frag =>
      let fragment := (frag.drop internalOffset).take readLength
      let bytesRead := min fragment.length (plen - acc.length)
      let acc2 := acc ++ fragment.take bytesRead
      if hz : bytesRead = 0 then
        if f.size ≤ f.offset + bytesRead then
          ⟨{ f with offset := f.offset + bytesRead }, acc2, none⟩
        else
          readLoop s errs.tail
            { f with offset := (fragmentIndex + 1) * fragmentSize } plen acc2
      else
        if acc2.length = plen then
          ⟨{ f with offset := f.offset + bytesRead }, acc2, none⟩
        else
          readLoop s errs.tail { f with offset := f.offset + bytesRead }
            plen acc2
termination_by f.size - f.offset
decreasing_by
  · have h2 : f.offset % fragmentSize < fragmentSize :=
      Nat.mod_lt _ (by simp [fragmentSize])
    have h1 : f.offset / fragmentSize * fragmentSize
        + f.offset % fragmentSize = f.offset := Nat.div_add_mod' _ _
    have hde : fragmentSize * (f.offset / fragmentSize)
        = f.offset / fragmentSize * fragmentSize := Nat.mul_comm _ _
    simp only [Nat.add_mul, Nat.one_mul]
    omega
  · unfold_let bytesRead fragment readLength internalOffset at hz
    simp only [List.length_take, List.length_drop, inf_eq_min] at hz ⊢
    omega

/-- `SQLiteFile.Read`: directories read as `EOF`; an empty buffer returns
`(0, nil)`; at or past the cached size the call returns `(0, EOF)`;
otherwise the fragment loop runs. -/
def sqRead (s : Store) (errs : List Bool) (f : SQLiteFile) (plen : Nat) :
    ReadRes :=
  if f.isDir then ⟨f, [], some .eof⟩
  else if plen = 0 then ⟨f, [], none⟩
  else if f.size ≤ f.offset then ⟨f, [], some .eof⟩
  else readLoop s errs f plen []

/-- The errors of `SQLiteFile.Seek`: `"sqlitefs: invalid whence"` and
`"sqlitefs: negative position"`. -/
inductive SeekErr where
  | invalidWhence
  | negativePosition
deriving DecidableEq, Repr

/-- `SQLiteFile.Seek`.  Whence 0/1/2 are `io.SeekStart` / `io.SeekCurrent`
/ `io.SeekEnd`; `SeekEnd` re-queries the total size from the current store
(it does not reuse the handle's cached `size`).  A negative resulting
offset is rejected; otherwise the handle's offset is updated and the new
offset returned. -/
def sqSeek (s : Store) (f : SQLiteFile) (offset : Int) (whence : Nat) :
    Except SeekErr (SQLiteFile × Int) :=
  if whence = 0 then
    if offset < 0 then .error .negativePosition
    else .ok ({ f with offset := offset.toNat }, offset)
  else if whence = 1 then
    let newOffset : Int := (f.offset : Int) + offset
    if newOffset < 0 then .error .negativePosition
    else .ok ({ f with offset := newOffset.toNat }, newOffset)
  else if whence = 2 then
    let newOffset : Int := (getTotalSize s f.path : Int) + offset
    if newOffset < 0 then .error .negativePosition
    else .ok ({ f with offset := newOffset.toNat }, newOffset)
  else .error .invalidWhence

/-- A test driver for "read the file to completion, looping on partial
reads": call `Read` with a `bufLen`-byte buffer until it returns an error,
concatenating the bytes of the successful calls.  `fuel` bounds the number
of calls; the returned flag is `true` when the loop ended in a clean
`EOF`.  This loop is harness code from the specification, not part of the
repository. -/
def readToEnd (s : Store) (f : SQLiteFile) (bufLen : Nat) :
    Nat → List Nat × SQLiteFile × Bool
  | 0 => ([], f, false)
  | fuel + 1 =>
    let r := sqRead s [] f bufLen
    match r.err with
    | some .eof => ([], r.file, true)
    | some .storage => (r.bytes, r.file, false)
    | none =>
      let rest := readToEnd s r.file bufLen fuel
      (r.bytes ++ rest.1, rest.2.1, rest.2.2)

/-- The errors a writer call can return: `"sqlitefs: write to closed
writer"`, or a failed fragment commit (any error coming back from the
CommitActor). -/
inductive WErr where
  | writerClosed
  | commitFailed
deriving DecidableEq, Repr

/-- The state of a `SQLiteWriter` (writer.go): the target path, the
buffered bytes, the next fragment index, and the `fileCreated` / `closed`
flags. -/
structure SQLiteWriter where
  path : GoStr
  buffer : List Nat
  fragmentIndex : Nat
  fileCreated : Bool
  closed : Bool
deriving DecidableEq, Repr

/-- `NewSQLiteWriter`: empty buffer, index 0, flags clear. -/
def newWriter (p : GoStr) : SQLiteWriter :=
  ⟨p, [], 0, false, false⟩

/-- The CommitActor handling a `createFileRecord` request:
`INSERT OR REPLACE INTO file_metadata (path, type)` with the resolved MIME
type.  The MIME type itself comes from the external
`mime.TypeByExtension` collaborator and is passed in as `mt`. -/
def createRecordActor (s : Store) (p mt : GoStr) : Store :=
  s.insertMeta p mt

/-- The CommitActor handling a `writeFragment` request: inside one
transaction, `SELECT id FROM file_metadata WHERE path = ?` (failing when
no row exists) and then `INSERT OR REPLACE INTO file_fragments`. -/
def commitFragment (s : Store) (p : GoStr) (idx : Nat) (d : List Nat) :
    Option Store :=
  match s.lookupId p with
  | none => none
  | some fid => some (s.insertFrag fid idx d)

/-- The result of one `SQLiteWriter.writeFragment` call: new store, new
writer state, remaining oracle, and whether the commit succeeded. -/
structure FragResult where
  store : Store
  writer : SQLiteWriter
  oracle : List Bool
  ok : Bool
deriving DecidableEq, Repr

/-- `SQLiteWriter.writeFragment`: create the file record on the first call
(setting `fileCreated`), then submit `min(len(buffer), fragmentSize)`
bytes from the front of the buffer as fragment `fragmentIndex` to the
CommitActor; on success drop those bytes and advance the index, on failure
leave the buffer and index untouched.  One oracle entry is consumed per
commit attempt; `false` models the database reporting an error for that
attempt (the record insert is kept infallible — failures of interest are
injected at the fragment commit). -/
def writeFragmentGo (mt : GoStr) (s : Store) (w : SQLiteWriter)
    (o : List Bool) : FragResult :=
  let s1 := if w.fileCreated then s else createRecordActor s w.path mt
  let w1 := { w with fileCreated := true }
  let writeSize := min w1.buffer.length fragmentSize
  match o.headD true, commitFragment s1 w1.path w1.fragmentIndex
      (w1.buffer.take writeSize) with
  | true, some s2 =>
    ⟨s2,
     { w1 with buffer := w1.buffer.drop writeSize,
               fragmentIndex := w1.fragmentIndex + 1 },
     o.tail, true⟩
  | true, none => ⟨s1, w1, o.tail, false⟩
  | false, _ => ⟨s1, w1, o.tail, false⟩

/-- On a successful commit the buffer loses `min(len, fragmentSize)`
bytes. -/
theorem writeFragmentGo_ok_buffer (mt : GoStr) (s : Store)
    (w : SQLiteWriter) (o : List Bool)
    (h : (writeFragmentGo mt s w o).ok = true) :
    (writeFragmentGo mt s w o).writer.buffer
      = w.buffer.drop (min w.buffer.length fragmentSize) := by
  unfold writeFragmentGo at h ⊢
  cases ho : o.headD true <;>
    cases hcf : commitFragment
        (if w.fileCreated then s else createRecordActor s w.path mt)
        w.path w.fragmentIndex
        (List.take (min w.buffer.length fragmentSize) w.buffer) <;>
    simp_all

/-- `writeFragment` always leaves `fileCreated` set. -/
theorem writeFragmentGo_created (mt : GoStr) (s : Store)
    (w : SQLiteWriter) (o : List Bool) :
    (writeFragmentGo mt s w o).writer.fileCreated = true := by
  unfold writeFragmentGo
  cases ho : o.headD true <;>
    cases hcf : commitFragment
        (if w.fileCreated then s else createRecordActor s w.path mt)
        w.path w.fragmentIndex
        (List.take (min w.buffer.length fragmentSize) w.buffer) <;>
    simp_all

/-- The result of one `SQLiteWriter.Write` call: new store, new writer,
remaining oracle, the returned Go `int` (which can be negative, hence
`Int`), and the returned error. -/
structure WriteRes where
  store : Store
  writer : SQLiteWriter
  oracle : List Bool
  n : Int
  err : Option WErr
deriving DecidableEq, Repr

/-- The `for len(w.buffer) >= w.fragmentSize` loop of
`SQLiteWriter.Write`: flush full fragments until less than one fragment
remains buffered; on a commit failure stop at once and return
`len(p) - len(w.buffer)` together with the error.  `plen` is `len(p)`. -/
def drainLoop (mt : GoStr) (s : Store) (w : SQLiteWriter) (o : List Bool)
    (plen : Nat) : WriteRes :=
  if h : fragmentSize ≤ w.buffer.length then
    if hok : (writeFragmentGo mt s w o).ok then
      drainLoop mt (writeFragmentGo mt s w o).store
        (writeFragmentGo mt s w o).writer (writeFragmentGo mt s w o).oracle
        plen
    else
      ⟨(writeFragmentGo mt s w o).store, (writeFragmentGo mt s w o).writer,
       (writeFragmentGo mt s w o).oracle,
       (plen : Int)
         - ((writeFragmentGo mt s w o).writer.buffer.length : Int),
       some .commitFailed⟩
  else ⟨s, w, o, (plen : Int), none⟩
termination_by w.buffer.length
decreasing_by
  rw [writeFragmentGo_ok_buffer mt s w o hok]
  simp only [List.length_drop]
  have hF : 0 < fragmentSize := by simp [fragmentSize]
  omega

/-- `SQLiteWriter.Write`: reject when closed; otherwise append the input
to the buffer and drain full fragments.  On success the returned count is
`len(p)`. -/
def sqWrite (mt : GoStr) (s : Store) (w : SQLiteWriter) (o : List Bool)
    (p : List Nat) : WriteRes :=
  if w.closed then ⟨s, w, o, 0, some .writerClosed⟩
  else drainLoop mt s { w with buffer := w.buffer ++ p } o p.length

/-- The result of one `SQLiteWriter.Close` call. -/
structure CloseRes where
  store : Store
  writer : SQLiteWriter
  oracle : List Bool
  err : Option WErr
deriving DecidableEq, Repr

/-- The `for len(w.buffer) > 0 || !w.fileCreated` loop of
`SQLiteWriter.Close`: flush the remaining buffer (or, for a file with no
committed fragment yet, the empty buffer) and finally mark the writer
closed; a commit failure is returned at once and the writer stays
open. -/
def closeLoop (mt : GoStr) (s : Store) (w : SQLiteWriter) (o : List Bool) :
    CloseRes :=
  if h : 0 < w.buffer.length ∨ w.fileCreated = false then
    if hok : (writeFragmentGo mt s w o).ok then
      closeLoop mt (writeFragmentGo mt s w o).store
        (writeFragmentGo mt s w o).writer (writeFragmentGo mt s w o).oracle
    else
      ⟨(writeFragmentGo mt s w o).store, (writeFragmentGo mt s w o).writer,
       (writeFragmentGo mt s w o).oracle, some .commitFailed⟩
  else ⟨s, { w with closed := true }, o, none⟩
termination_by w.buffer.length + (if w.fileCreated then 0 else 1)
decreasing_by
  rw [writeFragmentGo_ok_buffer mt s w o hok,
    writeFragmentGo_created mt s w o]
  simp only [List.length_drop, if_true]
  have hF : 0 < fragmentSize := by simp [fragmentSize]
  rcases h with h | h
  · cases w.fileCreated <;> simp <;> omega
  · rw [h]
    simp
    omega

/-- `SQLiteWriter.Close`: a second call after a successful close returns
immediately with no error and no mutation. -/
def sqClose (mt : GoStr) (s : Store) (w : SQLiteWriter) (o : List Bool) :
    CloseRes :=
  if w.closed then ⟨s, w, o, none⟩
  else closeLoop mt s w o

/-- Feed a list of chunks to a writer with `Write`, one call per chunk,
with no injected failures. -/
def writeAllGo (mt : GoStr) : Store → SQLiteWriter → List (List Nat) →
    Store × SQLiteWriter
  | s, w, [] => (s, w)
  | s, w, c :: rest =>
    writeAllGo mt (sqWrite mt s w [] c).store (sqWrite mt s w [] c).writer
      rest

/-- The `Close` call that ends a writer run: feed the chunks, then
`Close`, all with no injected failures. -/
def writerRunClose (s0 : Store) (p mt : GoStr) (cs : List (List Nat)) :
    CloseRes :=
  sqClose mt (writeAllGo mt s0 (newWriter p) cs).1
    (writeAllGo mt s0 (newWriter p) cs).2 []

/-- Run a writer to completion with no injected failures: one
`sqWrite` per chunk, then `sqClose`; returns the final store, the final
writer, and the error returned by `Close`. -/
def writerRun (s0 : Store) (p mt : GoStr) (cs : List (List Nat)) :
    Store × SQLiteWriter × Option WErr :=
  ((writerRunClose s0 p mt cs).store, (writerRunClose s0 p mt cs).writer,
   (writerRunClose s0 p mt cs).err)

/-- The error of `SQLiteFS.Open`: a `PathError` wrapping
`"file does not exist"`. -/
inductive OpenErr where
  | notFound
deriving DecidableEq, Repr

/-- `SQLiteFS.Open` (sqlitefs.go): normalise `""` and `"."` to `"/"`,
strip one leading slash, try an exact `file_metadata` match, then try a
directory-prefix match (`LIKE dirPath || '%'`), else fail.  There is no
special case for the root: on a database with no rows at all, opening
`"/"` falls through both checks and fails. -/
def sqOpen (s : Store) (name0 : GoStr) : Except OpenErr SQLiteFile :=
  let name := if name0 == [] || name0 == ['.'] then ['/'] else name0
  let dbPath := match name with
                | '/' :: rest => rest
                | other => other
  if s.pathExists dbPath then .ok (newSQLiteFile s dbPath)
  else
    let dirPath :=
      if dbPath ≠ [] && !(dbPath.getLast? == some '/') then dbPath ++ ['/']
      else dbPath
    if s.metas.any (fun m => dirPath.isPrefixOf m.path) then
      .ok (newSQLiteFile s dirPath)
    else .error .notFound

/-- What `Stat` returns: the `fileInfo` fields the code fills in (name,
size, directory flag; the modification time is always `time.Now()` and is
not modelled). -/
structure GoFileInfo where
  name : GoStr
  size : Nat
  isDir : Bool
deriving DecidableEq, Repr

/-- The error of `createFileInfo`: `os.ErrNotExist`. -/
inductive StatErr where
  | notExist
deriving DecidableEq, Repr

/-- The literal `'file'` compared against the `type` column in
`createFileInfo`. -/
def fileLit : GoStr := ['f', 'i', 'l', 'e']

/-- `SQLiteFile.createFileInfo` (file.go).  For a file path: look up the
metadata row with `type = 'file'` (note the writer actually stores the
MIME type in that column), failing with `os.ErrNotExist` when absent, and
sum the fragment lengths for the size.  For a directory path: the root
always exists (the code overwrites the EXISTS result with `true`); any
other directory exists when a prefix match or an exact row exists.  The
name is `filepath.Base` with the code's special cases. -/
def createFileInfo (s : Store) (fIsDir : Bool) (path : GoStr) :
    Except StatErr GoFileInfo :=
  let isDir := fIsDir || path == [] || path == ['/'] || endsSlash path
  let name0 := filepathBase path
  let name :=
    if name0 == ['/'] || name0 == ['.'] || name0 == [] then ['/']
    else if endsSlash path && !(name0 == ['/']) then
      filepathBase (trimSuffixSlash path)
    else name0
  if isDir then
    if path == [] || path == ['/'] then .ok ⟨name, 0, true⟩
    else
      let dirPath := if endsSlash path then path else path ++ ['/']
      if s.metas.any (fun m => dirPath.isPrefixOf m.path) then
        .ok ⟨name, 0, true⟩
      else if s.pathExists path then .ok ⟨name, 0, true⟩
      else .error .notExist
  else
    match s.metas.find? (fun m => m.path == path && m.type == fileLit) with
    | none => .error .notExist
    | some m => .ok ⟨name, sumLenById s m.id, false⟩

/-- `SQLiteFile.Stat` delegates to `createFileInfo` on the handle's own
path. -/
def sqStat (s : Store) (f : SQLiteFile) : Except StatErr GoFileInfo :=
  createFileInfo s f.isDir f.path

/-- The errors of `SQLiteFile.ReadDir`: `"not a directory"` and
`"directory not found"`. -/
inductive DirErr where
  | notADirectory
  | notFound
deriving DecidableEq, Repr

/-- The row-processing loop of `SQLiteFile.ReadDir` (file.go).  For each
`file_metadata` row: compute the immediate child name (the first path
segment, relative to the directory for non-root listings), mark it a
subdirectory when the remainder contains a slash or the row's path ends in
one, dedup on the derived `childPath`, strip a trailing slash from the
entry name, resolve file sizes via the fragment-length sum, and stop after
`n` entries when `n > 0`. -/
def readDirLoop (s : Store) (root : Bool) (dirPath : GoStr) (n : Int) :
    List FileMeta → List GoStr → List GoFileInfo → List GoFileInfo
  | [], _, entries => entries
  | row :: rest, seen, entries =>
    if !root && row.path == dirPath then
      readDirLoop s root dirPath n rest seen entries
    else
      let rel := if root then row.path else trimPre dirPath row.path
      let cn := (splitFirst rel).1
      let isSubDir := (splitFirst rel).2.isSome || endsSlash row.path
      let base := if root then cn else dirPath ++ cn
      let childPath := if isSubDir && !(endsSlash base) then base ++ ['/']
                       else base
      if seen.contains childPath then
        readDirLoop s root dirPath n rest seen entries
      else
        let cleanName := if isSubDir && endsSlash cn then trimSuffixSlash cn
                         else cn
        let sz := if !isSubDir then sumFragLen s row.path else 0
        let entries2 := entries ++ [⟨cleanName, sz, isSubDir⟩]
        if 0 < n ∧ n ≤ (entries2.length : Int) then entries2
        else readDirLoop s root dirPath n rest (childPath :: seen) entries2

/-- `SQLiteFile.ReadDir`.  Root listings scan every `file_metadata` row;
other listings scan rows matching `path LIKE dirPath || '%' AND path !=
dirPath`.  When the loop produced no entries, the directory's existence is
checked (all rows for root, a prefix match otherwise) and a missing
directory fails with `"directory not found"`. -/
def sqReadDir (s : Store) (f : SQLiteFile) (n : Int) :
    Except DirErr (List GoFileInfo) :=
  if !f.isDir then .error .notADirectory
  else
    let root := f.path == [] || f.path == ['/']
    let dirPath := if endsSlash f.path then f.path else f.path ++ ['/']
    let rows :=
      if root then s.metas
      else s.metas.filter
        (fun m => dirPath.isPrefixOf m.path && !(m.path == dirPath))
    let entries := readDirLoop s root dirPath n rows [] []
    if entries.isEmpty then
      let ex := if root then !s.metas.isEmpty
                else s.metas.any (fun m => dirPath.isPrefixOf m.path)
      if ex then .ok entries else .error .notFound
    else .ok entries

/-! ## Specification-level notions -/

/-- Fragment `i` of a byte stream `D`: bytes `i*fragmentSize` through
`(i+1)*fragmentSize - 1`. -/
def fragChunk (D : List Nat) (i : Nat) : List Nat :=
  (D.drop (i * fragmentSize)).take fragmentSize

/-- The number of fragment rows the writer produces for a stream of `L`
bytes: `ceil(L / fragmentSize)` full-or-partial fragments, except that a
zero-byte stream still produces the single empty fragment committed by
`Close`. -/
def KOf (L : Nat) : Nat :=
  if L = 0 then 1 else (L + fragmentSize - 1) / fragmentSize

/-- The fragment rows `0 .. k-1` of file `fid` holding the stream `D`. -/
def midRows (fid : Nat) (D : List Nat) (k : Nat) : List FragRow :=
  (List.range k).map (fun i => ⟨fid, i, fragChunk D i⟩)

/-- The store after a writer for path `p` created its file record on base
store `s0` and committed `rows`: the old metadata row for `p` (if any) is
replaced by a fresh one with id `s0.nextId`, and the fragment rows are
appended. -/
def runStore (s0 : Store) (p mt : GoStr) (rows : List FragRow) : Store :=
  { metas := s0.metas.filter (fun m => !(m.path == p)) ++ [⟨s0.nextId, p, mt⟩],
    frags := s0.frags ++ rows,
    nextId := s0.nextId + 1 }

/-- Store well-formedness used throughout: every fragment row belongs to an
already-allocated file id.  AUTOINCREMENT guarantees this for every store
the system itself produces. -/
def StoreWF (s : Store) : Prop :=
  ∀ r ∈ s.frags, r.fileId < s.nextId

/-! ## C10: reading a directory handle -/

/-- C10: `Read` on a directory handle always returns `(0, io.EOF)` — never
a `NotADirectory` or storage error — for every store, error schedule,
directory handle and buffer. -/
theorem c10_dir_read_eof (s : Store) (errs : List Bool) (f : SQLiteFile)
    (plen : Nat) (h : f.isDir = true) :
    sqRead s errs f plen = ⟨f, [], some .eof⟩ := by
  unfold sqRead
  simp [h]

/-- Witness for C10 at a concrete directory handle. -/
theorem c10_dir_read_eof_witness :
    (⟨['d', '/'], 0, 0, true⟩ : SQLiteFile).isDir = true ∧
      sqRead emptyStore [] ⟨['d', '/'], 0, 0, true⟩ 7 =
        ⟨⟨['d', '/'], 0, 0, true⟩, [], some .eof⟩ :=
  ⟨rfl, c10_dir_read_eof emptyStore [] ⟨['d', '/'], 0, 0, true⟩ 7 rfl⟩

/-! ## C6: Read EOF and truncation conventions -/

/-- C6 counterexample: the claim says every `Read` on a file handle with
`offset >= size` on entry returns `(0, EOF)`, but a call with an empty
buffer returns `(0, nil)` first: at offset 0 of an empty file (offset ≥
size) the call reports no error. -/
theorem c6_counterexample :
    sqRead emptyStore [] ⟨['a'], 0, 0, false⟩ 0
        = ⟨⟨['a'], 0, 0, false⟩, [], none⟩ ∧
      (⟨['a'], 0, 0, false⟩ : SQLiteFile).size
        ≤ (⟨['a'], 0, 0, false⟩ : SQLiteFile).offset := by
  constructor
  · rfl
  · decide

/-- C6 amended: on a file handle, (1) a `Read` with a nonempty buffer
whose offset is at or past the cached size returns `(0, EOF)` (an empty
buffer returns `(0, nil)` instead); (2) when the fragment query of the
loop finds no row after bytes were accumulated in this call, those bytes
are returned with no error; (3) with no bytes accumulated, a missing row
yields `(0, EOF)`; (4) any other storage error is surfaced together with
the bytes accumulated so far. -/
theorem c6_amended :
    (∀ (s : Store) (errs : List Bool) (f : SQLiteFile),
        f.isDir = false →
        sqRead s errs f 0 = ⟨f, [], none⟩) ∧
    (∀ (s : Store) (errs : List Bool) (f : SQLiteFile) (plen : Nat),
        f.isDir = false → 0 < plen → f.size ≤ f.offset →
        sqRead s errs f plen = ⟨f, [], some .eof⟩) ∧
    (∀ (s : Store) (errs : List Bool) (f : SQLiteFile) (plen : Nat)
        (acc : List Nat),
        f.offset < f.size → errs.headD false = false →
        findFrag s f.path (f.offset / fragmentSize) = none →
        0 < acc.length →
        readLoop s errs f plen acc = ⟨f, acc, none⟩) ∧
    (∀ (s : Store) (errs : List Bool) (f : SQLiteFile) (plen : Nat),
        f.offset < f.size → errs.headD false = false →
        findFrag s f.path (f.offset / fragmentSize) = none →
        readLoop s errs f plen [] = ⟨f, [], some .eof⟩) ∧
    (∀ (s : Store) (errs : List Bool) (f : SQLiteFile) (plen : Nat)
        (acc : List Nat),
        f.offset < f.size → errs.headD false = true →
        readLoop s errs f plen acc = ⟨f, acc, some .storage⟩) := by
  refine ⟨?_, ?_, ?_, ?_, ?_⟩
  · intro s errs f hdir
    unfold sqRead
    simp [hdir]
  · intro s errs f plen hdir hplen hoff
    unfold sqRead
    simp [hdir, hoff, Nat.pos_iff_ne_zero.mp hplen]
  · intro s errs f plen acc hoff herr hfind hacc
    rw [readLoop]
    simp only [List.headD_eq_head?_getD] at herr
    simp [Nat.not_le.mpr hoff, herr, hfind, hacc, Nat.pos_iff_ne_zero.mp hacc]
  · intro s errs f plen hoff herr hfind
    rw [readLoop]
    simp only [List.headD_eq_head?_getD] at herr
    simp [Nat.not_le.mpr hoff, herr, hfind]
  · intro s errs f plen acc hoff herr
    rw [readLoop]
    simp only [List.headD_eq_head?_getD] at herr
    simp [Nat.not_le.mpr hoff, herr]

/-- Witness for C6 amended, applying each conjunct at a one-byte file
whose handle sits at offset 0 (parts 3-5 drive `readLoop` directly at a
store with no fragment row / a failing schedule). -/
theorem c6_amended_witness :
    (⟨['a'], 0, 1, false⟩ : SQLiteFile).isDir = false ∧
      (0 : Nat) < 1 ∧
      sqRead emptyStore [] ⟨['a'], 0, 1, false⟩ 0
        = ⟨⟨['a'], 0, 1, false⟩, [], none⟩ ∧
      readLoop emptyStore [] ⟨['a'], 0, 1, false⟩ 4 [9]
        = ⟨⟨['a'], 0, 1, false⟩, [9], none⟩ ∧
      readLoop emptyStore [] ⟨['a'], 0, 1, false⟩ 4 []
        = ⟨⟨['a'], 0, 1, false⟩, [], some .eof⟩ ∧
      readLoop emptyStore [true] ⟨['a'], 0, 1, false⟩ 4 [9]
        = ⟨⟨['a'], 0, 1, false⟩, [9], some .storage⟩ := by
  refine ⟨rfl, by decide, ?_, ?_, ?_, ?_⟩
  · exact c6_amended.1 emptyStore [] ⟨['a'], 0, 1, false⟩ rfl
  · exact c6_amended.2.2.1 emptyStore [] ⟨['a'], 0, 1, false⟩ 4 [9]
      (by decide) rfl rfl (by decide)
  · exact c6_amended.2.2.2.1 emptyStore [] ⟨['a'], 0, 1, false⟩ 4
      (by decide) rfl rfl
  · exact c6_amended.2.2.2.2 emptyStore [true] ⟨['a'], 0, 1, false⟩ 4 [9]
      (by decide) rfl

/-! ## C7: Close is idempotent and terminal -/

/-- A `closeLoop` run that returns no error leaves the writer marked
closed. -/
theorem closeLoop_closed_of_ok (mt : GoStr) :
    ∀ (s : Store) (w : SQLiteWriter) (o : List Bool),
      (closeLoop mt s w o).err = none →
      (closeLoop mt s w o).writer.closed = true := by
  intro s w o
  induction s, w, o using closeLoop.induct mt with
  | case1 s w o hcond hok ih =>
    rw [closeLoop]
    simp only [dif_pos hcond, dif_pos hok]
    exact ih
  | case2 s w o hcond hok =>
    rw [closeLoop]
    simp only [dif_pos hcond, dif_neg hok]
    intro h
    exact absurd h (by simp)
  | case3 s w o hcond =>
    rw [closeLoop]
    simp only [dif_neg hcond]
    intro _
    trivial

/-- `Close` on an already-closed writer is a no-op returning success. -/
theorem sqClose_closed (mt : GoStr) (s : Store) (w : SQLiteWriter)
    (o : List Bool) (h : w.closed = true) :
    sqClose mt s w o = ⟨s, w, o, none⟩ := by
  unfold sqClose
  rw [if_pos h]

/-- `Write` on a closed writer fails with `WriterClosed` and changes
nothing. -/
theorem sqWrite_closed (mt : GoStr) (s : Store) (w : SQLiteWriter)
    (o : List Bool) (p : List Nat) (h : w.closed = true) :
    sqWrite mt s w o p = ⟨s, w, o, 0, some .writerClosed⟩ := by
  unfold sqWrite
  rw [if_pos h]

/-- C7: after a successful `Close`, the writer is marked closed; a second
`Close` performs no mutation and returns success; and any `Write` fails
with the `WriterClosed` error, leaving the store unchanged. -/
theorem c7_close_idempotent (mt : GoStr) (s : Store) (w : SQLiteWriter)
    (o o2 o3 : List Bool) (p : List Nat)
    (h : (sqClose mt s w o).err = none) :
    (sqClose mt s w o).writer.closed = true ∧
    sqClose mt (sqClose mt s w o).store (sqClose mt s w o).writer o2
      = ⟨(sqClose mt s w o).store, (sqClose mt s w o).writer, o2, none⟩ ∧
    sqWrite mt (sqClose mt s w o).store (sqClose mt s w o).writer o3 p
      = ⟨(sqClose mt s w o).store, (sqClose mt s w o).writer, o3, 0,
         some .writerClosed⟩ := by
  have hc : (sqClose mt s w o).writer.closed = true := by
    unfold sqClose at h ⊢
    by_cases hw : w.closed
    · simp [hw]
    · simp only [if_neg hw] at h ⊢
      exact closeLoop_closed_of_ok mt s w o h
  exact ⟨hc, sqClose_closed mt _ _ o2 hc, sqWrite_closed mt _ _ o3 p hc⟩

/-- Closing a fresh writer on the empty store: `Close` creates the file
record and commits the (empty) buffer as fragment 0, then marks the writer
closed.  Shared evaluation helper. -/
theorem sqClose_fresh (mt p : GoStr) :
    sqClose mt emptyStore (newWriter p) []
      = ⟨⟨[⟨0, p, mt⟩], [⟨0, 0, []⟩], 1⟩, ⟨p, [], 1, true, true⟩, [], none⟩ := by
  unfold sqClose newWriter
  rw [closeLoop]
  simp only [writeFragmentGo, createRecordActor, Store.insertMeta,
    commitFragment, Store.lookupId, Store.insertFrag, emptyStore]
  norm_num
  rw [closeLoop]
  simp

/-- Witness for C7: closing a fresh writer on the empty store succeeds, and
the theorem's conclusions hold there. -/
theorem c7_close_idempotent_witness :
    (sqClose [] emptyStore (newWriter ['a']) []).err = none ∧
    (sqClose [] emptyStore (newWriter ['a']) []).writer.closed = true :=
  ⟨by rw [sqClose_fresh], (c7_close_idempotent [] emptyStore (newWriter ['a'])
    [] [] [] [7] (by rw [sqClose_fresh])).1⟩

/-! ## C3: the root directory -/

/-- C3 counterexample: on a database with no rows, `Open("/")` does *not*
succeed — it falls through the exact-match and prefix checks and fails
with the not-found error, so the root does not "always exist" for
`Open`. -/
theorem c3_counterexample :
    sqOpen emptyStore ['/'] = .error .notFound := by
  rfl

/-- C3 amended: on any store holding at least one `file_metadata` row,
opening `""` or `"/"` succeeds with a directory handle (the handle for the
empty path), and `Stat` on that handle reports the root directory
`{name "/", size 0, isDir true}`; on the empty store `Open` instead fails
(see the counterexample). -/
theorem c3_amended (s : Store) (name0 : GoStr)
    (hroot : name0 = [] ∨ name0 = ['/']) (hne : s.metas ≠ []) :
    sqOpen s name0 = .ok (newSQLiteFile s []) ∧
    (newSQLiteFile s []).isDir = true ∧
    sqStat s (newSQLiteFile s []) = .ok ⟨['/'], 0, true⟩ := by
  have hopen : sqOpen s name0 = .ok (newSQLiteFile s []) := by
    have hany : s.metas.any (fun m => (([] : GoStr)).isPrefixOf m.path)
        = true := by
      cases hm : s.metas with
      | nil => exact absurd hm hne
      | cons a t => simp [List.isPrefixOf]
    rcases hroot with h | h <;> subst h <;>
      · unfold sqOpen
        by_cases hex : s.pathExists []
        · simp [hex]
        · simp [hex]
          exact List.exists_mem_of_ne_nil _ hne
  refine ⟨hopen, rfl, rfl⟩

/-- Witness for C3 amended at a store holding exactly one file row. -/
theorem c3_amended_witness :
    ((⟨[⟨0, ['a'], []⟩], [], 1⟩ : Store).metas ≠ [] ∧
      sqOpen ⟨[⟨0, ['a'], []⟩], [], 1⟩ ['/']
        = .ok (newSQLiteFile ⟨[⟨0, ['a'], []⟩], [], 1⟩ [])) :=
  ⟨by simp, (c3_amended ⟨[⟨0, ['a'], []⟩], [], 1⟩ ['/'] (Or.inr rfl)
    (by simp)).1⟩

/-! ## C2: the fragmentation invariant -/

/-- C2 counterexample: the claim says a zero-byte file (Close with no
bytes written) yields a FileRecord with zero fragment rows; in fact
`Close` commits the empty buffer as fragment 0, so the file has exactly
one fragment row, of length 0. -/
theorem c2_counterexample :
    (writerRun emptyStore ['e'] [] []).2.2 = none ∧
    fragRowsOf (writerRun emptyStore ['e'] [] []).1 0 = [⟨0, 0, []⟩] := by
  have h : writerRun emptyStore ['e'] [] []
      = (⟨[⟨0, ['e'], []⟩], [⟨0, 0, []⟩], 1⟩, ⟨['e'], [], 1, true, true⟩,
         none) := by
    unfold writerRun writerRunClose writeAllGo
    rw [sqClose_fresh]
  rw [h]
  refine ⟨rfl, ?_⟩
  rfl

/-- The writer state after `j` committed fragments of the stream `D`:
everything before `j*fragmentSize` is committed, the rest is buffered; the
file record exists as soon as one fragment was committed. -/
def midWriter (p : GoStr) (D : List Nat) (j : Nat) : SQLiteWriter :=
  ⟨p, D.drop (j * fragmentSize), j, j != 0, false⟩

/-- The store after `j` committed fragments of the stream `D` on base
store `s0`: untouched while nothing was committed, and `runStore` with the
first `j` fragment rows afterwards. -/
def midStore (s0 : Store) (p mt : GoStr) (D : List Nat) (j : Nat) : Store :=
  if j = 0 then s0 else runStore s0 p mt (midRows s0.nextId D j)

theorem fragmentSize_pos : 0 < fragmentSize := by simp [fragmentSize]

/-- Taking `min l.length n` elements is taking `n` elements. -/
theorem take_min_length {α : Type} (l : List α) (n : Nat) :
    l.take (min l.length n) = l.take n := by
  rcases Nat.le_total l.length n with h | h
  · rw [Nat.min_eq_left h, List.take_of_length_le h,
      List.take_of_length_le (Nat.le_refl _)]
  · rw [Nat.min_eq_right h]

/-- Dropping the committed prefix of the buffer advances the stream by one
fragment. -/
theorem drop_buffer_chunk (D : List Nat) (j : Nat) :
    (D.drop (j * fragmentSize)).drop
        (min (D.drop (j * fragmentSize)).length fragmentSize)
      = D.drop ((j + 1) * fragmentSize) := by
  rcases Nat.le_total (D.drop (j * fragmentSize)).length fragmentSize
    with h | h
  · rw [Nat.min_eq_left h, List.drop_of_length_le (Nat.le_refl _),
      Eq.comm, List.drop_eq_nil_iff]
    simp only [List.length_drop] at h ⊢
    have h2 : (j + 1) * fragmentSize = j * fragmentSize + fragmentSize := by
      rw [Nat.add_mul, Nat.one_mul]
    omega
  · rw [Nat.min_eq_right h, List.drop_drop]
    have h2 : j * fragmentSize + fragmentSize = (j + 1) * fragmentSize := by
      rw [Nat.add_mul, Nat.one_mul]
    rw [h2]

/-- The committed slice of the buffer is exactly fragment `j` of the
stream. -/
theorem take_buffer_chunk (D : List Nat) (j : Nat) :
    (D.drop (j * fragmentSize)).take
        (min (D.drop (j * fragmentSize)).length fragmentSize)
      = fragChunk D j := by
  rw [take_min_length]
  rfl

/-- Looking up the path in a `runStore` finds the fresh record id. -/
theorem lookupId_runStore (s0 : Store) (p mt : GoStr)
    (rows : List FragRow) :
    (runStore s0 p mt rows).lookupId p = some s0.nextId := by
  unfold runStore Store.lookupId
  rw [List.find?_append]
  have h1 : (s0.metas.filter (fun m => !(m.path == p))).find?
      (fun m => m.path == p) = none := by
    rw [List.find?_eq_none]
    intro m hm
    have := (List.mem_filter.mp hm).2
    simp at this
    simp [this]
  rw [h1]
  simp

/-- Committing a fresh fragment row into a `runStore` whose rows are the
first `j` fragments appends it: the base rows have smaller file ids (by
well-formedness) and the existing rows have smaller indices, so the
replace clause of the upsert deletes nothing. -/
theorem insertFrag_runStore (s0 : Store) (p mt : GoStr) (hwf : StoreWF s0)
    (D : List Nat) (j : Nat) (d : List Nat) :
    (runStore s0 p mt (midRows s0.nextId D j)).insertFrag s0.nextId j d
      = runStore s0 p mt (midRows s0.nextId D j ++ [⟨s0.nextId, j, d⟩]) := by
  unfold runStore Store.insertFrag
  simp only [Store.mk.injEq, and_true, true_and]
  rw [List.filter_append]
  have h1 : s0.frags.filter
      (fun r => !(r.fileId == s0.nextId && r.index == j)) = s0.frags := by
    rw [List.filter_eq_self]
    intro r hr
    have := hwf r hr
    simp only [Bool.not_eq_eq_eq_not, Bool.not_true, Bool.and_eq_false_imp]
    intro hid
    exact absurd (by simpa using hid) (Nat.ne_of_lt this)
  have h2 : (midRows s0.nextId D j).filter
      (fun r => !(r.fileId == s0.nextId && r.index == j)) =
      midRows s0.nextId D j := by
    rw [List.filter_eq_self]
    intro r hr
    unfold midRows at hr
    obtain ⟨i, hi, rfl⟩ := List.mem_map.mp hr
    have hij : i < j := List.mem_range.mp hi
    simp [Nat.ne_of_lt hij]
  rw [h1, h2, List.append_assoc]

/-- Creating the file record on a bare store is `runStore` with no
fragment rows. -/
theorem createRecordActor_eq_runStore (s0 : Store) (p mt : GoStr) :
    createRecordActor s0 p mt = runStore s0 p mt [] := by
  unfold createRecordActor Store.insertMeta runStore
  simp

/-- `midRows` grows one row at a time. -/
theorem midRows_succ (fid : Nat) (D : List Nat) (j : Nat) :
    midRows fid D (j + 1)
      = midRows fid D j ++ [⟨fid, j, fragChunk D j⟩] := by
  unfold midRows
  rw [List.range_succ, List.map_append]
  rfl

/-- One `writeFragment` step on a mid-run state (with a non-failing oracle
entry) commits exactly fragment `j` of the stream and advances the
writer. -/
theorem writeFragmentGo_mid (s0 : Store) (p mt : GoStr) (hwf : StoreWF s0)
    (D : List Nat) (j : Nat) (o : List Bool) (ho : o.headD true = true) :
    writeFragmentGo mt (midStore s0 p mt D j) (midWriter p D j) o
      = ⟨midStore s0 p mt D (j + 1), midWriter p D (j + 1), o.tail, true⟩ := by
  have hstore : (if (j != 0) = true then midStore s0 p mt D j
        else createRecordActor (midStore s0 p mt D j) p mt)
      = runStore s0 p mt (midRows s0.nextId D j) := by
    by_cases hj0 : j = 0
    · subst hj0
      simp only [bne_self_eq_false, Bool.false_eq_true, if_false]
      simp only [midStore, reduceIte, midRows, List.range_zero, List.map_nil]
      exact createRecordActor_eq_runStore s0 p mt
    · have hb : (j != 0) = true := by simp [hj0]
      rw [if_pos hb]
      unfold midStore
      rw [if_neg hj0]
  have hcf : commitFragment (runStore s0 p mt (midRows s0.nextId D j)) p j
        (List.take ((List.drop (j * fragmentSize) D).length ⊓ fragmentSize)
          (List.drop (j * fragmentSize) D))
      = some (runStore s0 p mt (midRows s0.nextId D (j + 1))) := by
    unfold commitFragment
    rw [lookupId_runStore, take_buffer_chunk]
    show some ((runStore s0 p mt (midRows s0.nextId D j)).insertFrag
        s0.nextId j (fragChunk D j)) = _
    rw [insertFrag_runStore s0 p mt hwf, midRows_succ]
  unfold writeFragmentGo
  simp only [midWriter, ho]
  rw [hstore, hcf]
  simp only [drop_buffer_chunk]
  unfold midStore
  rw [if_neg (Nat.succ_ne_zero j)]
  simp

/-- The value of the ceiling division used by `KOf`. -/
theorem ceil_div_eq (L : Nat) :
    (L + fragmentSize - 1) / fragmentSize
      = if L % fragmentSize = 0 then L / fragmentSize
        else L / fragmentSize + 1 := by
  have hF := fragmentSize_pos
  have hq := Nat.div_add_mod L fragmentSize
  have hr : L % fragmentSize < fragmentSize := Nat.mod_lt _ hF
  by_cases hm : L % fragmentSize = 0
  · rw [if_pos hm]
    by_cases h0 : L = 0
    · subst h0
      simp [Nat.div_eq_of_lt (show fragmentSize - 1 < fragmentSize by
        omega)]
    · have h1 : L + fragmentSize - 1
          = fragmentSize * (L / fragmentSize) + (fragmentSize - 1) := by
        omega
      rw [h1, Nat.mul_add_div hF,
        Nat.div_eq_of_lt (show fragmentSize - 1 < fragmentSize by omega),
        Nat.add_zero]
  · rw [if_neg hm]
    have h1 : L + fragmentSize - 1
        = fragmentSize * (L / fragmentSize + 1) + (L % fragmentSize - 1)
      := by
      rw [Nat.mul_succ]
      omega
    rw [h1, Nat.mul_add_div hF,
      Nat.div_eq_of_lt
        (show L % fragmentSize - 1 < fragmentSize by omega),
      Nat.add_zero]

/-- The stream fits in `KOf` fragments. -/
theorem KOf_mul_ge (L : Nat) : L ≤ KOf L * fragmentSize := by
  unfold KOf
  have hF := fragmentSize_pos
  have hq := Nat.div_add_mod L fragmentSize
  have hr : L % fragmentSize < fragmentSize := Nat.mod_lt _ hF
  by_cases h0 : L = 0
  · simp [h0]
  · rw [if_neg h0, ceil_div_eq]
    by_cases hm : L % fragmentSize = 0
    · rw [if_pos hm]
      have h7 : L / fragmentSize * fragmentSize
          = fragmentSize * (L / fragmentSize) := Nat.mul_comm _ _
      omega
    · rw [if_neg hm]
      have h6 : (L / fragmentSize + 1) * fragmentSize
          = fragmentSize * (L / fragmentSize) + fragmentSize := by
        rw [Nat.add_mul, Nat.one_mul, Nat.mul_comm]
      omega

/-- All fragments but the last are filled: the last fragment starts
strictly inside the stream. -/
theorem KOf_pred_mul_lt (L : Nat) (h : 0 < L) :
    (KOf L - 1) * fragmentSize < L := by
  unfold KOf
  have hF := fragmentSize_pos
  have hq := Nat.div_add_mod L fragmentSize
  have hr : L % fragmentSize < fragmentSize := Nat.mod_lt _ hF
  rw [if_neg (Nat.pos_iff_ne_zero.mp h), ceil_div_eq]
  by_cases hm : L % fragmentSize = 0
  · rw [if_pos hm]
    have h2 : 0 < L / fragmentSize := by
      rcases Nat.eq_zero_or_pos (L / fragmentSize) with hz | hp
      · rw [hz] at hq
        omega
      · exact hp
    have h3 : (L / fragmentSize - 1) * fragmentSize
        = L / fragmentSize * fragmentSize - fragmentSize := by
      rw [Nat.sub_mul, Nat.one_mul]
    have h4 : L / fragmentSize * fragmentSize
        = fragmentSize * (L / fragmentSize) := Nat.mul_comm _ _
    have h5 : fragmentSize ≤ fragmentSize * (L / fragmentSize) :=
      Nat.le_mul_of_pos_right _ h2
    omega
  · rw [if_neg hm, Nat.add_sub_cancel]
    have h7 : L / fragmentSize * fragmentSize
        = fragmentSize * (L / fragmentSize) := Nat.mul_comm _ _
    omega

/-- When the remaining tail is strictly shorter than one fragment, `j` is
the fragment count of the whole stream. -/
theorem div_eq_of_between (L j : Nat) (h1 : j * fragmentSize ≤ L)
    (h2 : L < (j + 1) * fragmentSize) : L / fragmentSize = j := by
  have ha : j ≤ L / fragmentSize :=
    (Nat.le_div_iff_mul_le fragmentSize_pos).mpr h1
  have hb : L / fragmentSize < j + 1 :=
    (Nat.div_lt_iff_lt_mul fragmentSize_pos).mpr h2
  omega

/-- The `Write` drain loop from any mid-run state with no injected
failures: it commits full fragments until fewer than `fragmentSize` bytes
are buffered, reaching fragment count `D.length / fragmentSize`, and
returns `(len(p), nil)`. -/
theorem drainLoop_mid (s0 : Store) (p mt : GoStr) (hwf : StoreWF s0)
    (D : List Nat) (plen : Nat) :
    ∀ (n j : Nat), D.length - j * fragmentSize ≤ n →
      j * fragmentSize ≤ D.length →
      drainLoop mt (midStore s0 p mt D j) (midWriter p D j) [] plen
        = ⟨midStore s0 p mt D (D.length / fragmentSize),
           midWriter p D (D.length / fragmentSize), [], (plen : Int),
           none⟩ := by
  intro n
  induction n with
  | zero =>
    intro j hn hj
    have hdiv : D.length / fragmentSize = j := by
      have h2 : (j + 1) * fragmentSize = j * fragmentSize + fragmentSize
        := by rw [Nat.add_mul, Nat.one_mul]
      exact div_eq_of_between _ _ hj (by
        have := fragmentSize_pos
        omega)
    rw [drainLoop]
    have hlen : (midWriter p D j).buffer.length = 0 := by
      simp only [midWriter, List.length_drop]
      omega
    rw [dif_neg (by
      rw [hlen]
      exact Nat.not_le.mpr fragmentSize_pos), hdiv]
  | succ n ih =>
    intro j hn hj
    by_cases hfull : j * fragmentSize + fragmentSize ≤ D.length
    · rw [drainLoop]
      have hcond : fragmentSize ≤ (midWriter p D j).buffer.length := by
        simp only [midWriter, List.length_drop]
        omega
      rw [dif_pos hcond]
      rw [writeFragmentGo_mid s0 p mt hwf D j [] rfl]
      simp only [dif_pos, List.tail_nil]
      rw [ih (j + 1) (by
        have h2 : (j + 1) * fragmentSize = j * fragmentSize + fragmentSize
          := by rw [Nat.add_mul, Nat.one_mul]
        have := fragmentSize_pos
        omega) (by
        rw [Nat.add_mul, Nat.one_mul]
        exact hfull)]
    · have hdiv : D.length / fragmentSize = j := by
        have h2 : (j + 1) * fragmentSize = j * fragmentSize + fragmentSize
          := by rw [Nat.add_mul, Nat.one_mul]
        exact div_eq_of_between _ _ hj (by omega)
      rw [drainLoop]
      have hlen : (midWriter p D j).buffer.length < fragmentSize := by
        simp only [midWriter, List.length_drop]
        omega
      rw [dif_neg (Nat.not_le.mpr hlen), hdiv]

/-- A fragment that lies entirely inside `D` is unchanged by appending
more data. -/
theorem fragChunk_append (D c : List Nat) (i : Nat)
    (h : (i + 1) * fragmentSize ≤ D.length) :
    fragChunk (D ++ c) i = fragChunk D i := by
  unfold fragChunk
  have hi : i * fragmentSize ≤ D.length := by
    have h2 : (i + 1) * fragmentSize = i * fragmentSize + fragmentSize := by
      rw [Nat.add_mul, Nat.one_mul]
    omega
  rw [List.drop_append_eq_append_drop, Nat.sub_eq_zero_of_le hi,
    List.drop_zero, List.take_append_eq_append_take]
  have hlen : fragmentSize ≤ (D.drop (i * fragmentSize)).length := by
    simp only [List.length_drop]
    have h2 : (i + 1) * fragmentSize = i * fragmentSize + fragmentSize := by
      rw [Nat.add_mul, Nat.one_mul]
    omega
  rw [Nat.sub_eq_zero_of_le hlen, List.take_zero, List.append_nil]

/-- Fragment rows below the committed point are unchanged by appending
more data. -/
theorem midRows_append (fid : Nat) (D c : List Nat) (j : Nat)
    (h : j * fragmentSize ≤ D.length) :
    midRows fid (D ++ c) j = midRows fid D j := by
  unfold midRows
  refine List.map_congr_left ?_
  intro i hi
  have hij : i < j := List.mem_range.mp hi
  rw [fragChunk_append]
  calc (i + 1) * fragmentSize ≤ j * fragmentSize :=
        Nat.mul_le_mul_right _ hij
    _ ≤ D.length := h

/-- The mid-run store ignores appended data beyond the committed point. -/
theorem midStore_append (s0 : Store) (p mt : GoStr) (D c : List Nat)
    (j : Nat) (h : j * fragmentSize ≤ D.length) :
    midStore s0 p mt (D ++ c) j = midStore s0 p mt D j := by
  unfold midStore
  by_cases hj0 : j = 0
  · simp [hj0]
  · rw [if_neg hj0, if_neg hj0, midRows_append _ _ _ _ h]

/-- `Write` from a drained mid-run state: the input is appended and full
fragments are committed; the call returns `(len(p), nil)`. -/
theorem sqWrite_mid (s0 : Store) (p mt : GoStr) (hwf : StoreWF s0)
    (D c : List Nat) (j : Nat) (hj : j * fragmentSize ≤ D.length) :
    sqWrite mt (midStore s0 p mt D j) (midWriter p D j) [] c
      = ⟨midStore s0 p mt (D ++ c) ((D ++ c).length / fragmentSize),
         midWriter p (D ++ c) ((D ++ c).length / fragmentSize), [],
         (c.length : Int), none⟩ := by
  unfold sqWrite
  rw [if_neg (by simp [midWriter])]
  have hbuf : ({ midWriter p D j with
      buffer := (midWriter p D j).buffer ++ c } : SQLiteWriter)
      = midWriter p (D ++ c) j := by
    simp only [midWriter]
    rw [List.drop_append_eq_append_drop, Nat.sub_eq_zero_of_le hj,
      List.drop_zero]
  rw [hbuf, ← midStore_append s0 p mt D c j hj]
  rw [drainLoop_mid s0 p mt hwf (D ++ c) c.length (D ++ c).length j
    (by omega) (by
      rw [List.length_append]
      omega)]

/-- Feeding chunks one `Write` at a time from a drained mid-run state
concatenates them onto the stream. -/
theorem writeAllGo_mid (s0 : Store) (p mt : GoStr) (hwf : StoreWF s0) :
    ∀ (cs : List (List Nat)) (D : List Nat) (j : Nat),
      j = D.length / fragmentSize →
      writeAllGo mt (midStore s0 p mt D j) (midWriter p D j) cs
        = (midStore s0 p mt (D ++ cs.flatten)
             ((D ++ cs.flatten).length / fragmentSize),
           midWriter p (D ++ cs.flatten)
             ((D ++ cs.flatten).length / fragmentSize)) := by
  intro cs
  induction cs with
  | nil =>
    intro D j hj
    subst hj
    simp [writeAllGo]
  | cons c rest ih =>
    intro D j hj
    have hjle : j * fragmentSize ≤ D.length := by
      rw [hj]
      exact Nat.div_mul_le_self _ _
    show writeAllGo mt
        (sqWrite mt (midStore s0 p mt D j) (midWriter p D j) [] c).store
        (sqWrite mt (midStore s0 p mt D j) (midWriter p D j) [] c).writer
        rest = _
    rw [sqWrite_mid s0 p mt hwf D c j hjle]
    rw [ih (D ++ c) ((D ++ c).length / fragmentSize) rfl]
    rw [List.append_assoc]
    rfl

/-- `Close` from a drained mid-run state: commit the remaining partial
fragment (or, for an untouched writer, the empty fragment), reaching
exactly `KOf` fragment rows, and mark the writer closed. -/
theorem closeLoop_mid (s0 : Store) (p mt : GoStr) (hwf : StoreWF s0)
    (D : List Nat) (j : Nat) (hj : j = D.length / fragmentSize) :
    closeLoop mt (midStore s0 p mt D j) (midWriter p D j) []
      = ⟨runStore s0 p mt (midRows s0.nextId D (KOf D.length)),
         ⟨p, [], KOf D.length, true, true⟩, [], none⟩ := by
  have hjle : j * fragmentSize ≤ D.length := by
    rw [hj]
    exact Nat.div_mul_le_self _ _
  have hlt : D.length < (j + 1) * fragmentSize := by
    have hq := Nat.div_add_mod D.length fragmentSize
    have hr : D.length % fragmentSize < fragmentSize :=
      Nat.mod_lt _ fragmentSize_pos
    have h2 : (j + 1) * fragmentSize = j * fragmentSize + fragmentSize := by
      rw [Nat.add_mul, Nat.one_mul]
    have h3 : j * fragmentSize = fragmentSize * (D.length / fragmentSize)
      := by rw [hj, Nat.mul_comm]
    omega
  by_cases hA : j ≠ 0 ∧ j * fragmentSize = D.length
  · obtain ⟨hj0, hjL⟩ := hA
    have hK : KOf D.length = j := by
      have hL0 : D.length ≠ 0 := by
        intro h
        rw [h] at hjL
        have := fragmentSize_pos
        rcases Nat.eq_zero_of_mul_eq_zero hjL with h' | h' <;> omega
      have hmod : D.length % fragmentSize = 0 := by
        rw [← hjL]
        exact Nat.mul_mod_left j fragmentSize
      unfold KOf
      rw [if_neg hL0, ceil_div_eq, if_pos hmod, ← hj]
    rw [closeLoop]
    rw [dif_neg (by
      simp only [midWriter, List.length_drop, not_or]
      constructor
      · omega
      · simp [hj0])]
    rw [hK]
    unfold midStore midWriter
    rw [if_neg hj0]
    have hnil : D.drop (j * fragmentSize) = [] :=
      List.drop_eq_nil_of_le (by omega)
    rw [hnil]
    have hb : (j != 0) = true := by simp [hj0]
    rw [hb]
  · have hK : KOf D.length = j + 1 := by
      by_cases hL0 : D.length = 0
      · have hj0 : j = 0 := by
          rw [hj, hL0]
          exact Nat.zero_div _
        rw [hL0, hj0]
        rfl
      · have hjlt : j * fragmentSize < D.length := by
          rcases Nat.lt_or_ge (j * fragmentSize) D.length with h | h
          · exact h
          · exfalso
            have hje : j * fragmentSize = D.length := Nat.le_antisymm hjle h
            have hj0 : j ≠ 0 := by
              intro hj0
              rw [hj0, Nat.zero_mul] at hje
              exact hL0 hje.symm
            exact hA ⟨hj0, hje⟩
        have hmod : D.length % fragmentSize ≠ 0 := by
          intro hmod
          have hq := Nat.div_add_mod D.length fragmentSize
          rw [hmod, Nat.add_zero] at hq
          rw [hj, Nat.mul_comm] at hjlt
          omega
        unfold KOf
        rw [if_neg hL0, ceil_div_eq, if_neg hmod, ← hj]
    rw [closeLoop]
    rw [dif_pos (by
      by_cases hj0 : j = 0
      · right
        simp [midWriter, hj0]
      · left
        simp only [midWriter, List.length_drop]
        have hjlt : j * fragmentSize < D.length := by
          rcases Nat.lt_or_ge (j * fragmentSize) D.length with h | h
          · exact h
          · exact absurd ⟨hj0, Nat.le_antisymm hjle h⟩ hA
        omega)]
    rw [writeFragmentGo_mid s0 p mt hwf D j [] rfl]
    simp only [dif_pos, List.tail_nil]
    rw [closeLoop]
    rw [dif_neg (by
      simp only [midWriter, List.length_drop, not_or]
      constructor
      · have h2 : (j + 1) * fragmentSize
            = j * fragmentSize + fragmentSize := by
          rw [Nat.add_mul, Nat.one_mul]
        omega
      · simp)]
    rw [hK]
    unfold midStore midWriter
    rw [if_neg (Nat.succ_ne_zero j)]
    have hnil : D.drop ((j + 1) * fragmentSize) = [] :=
      List.drop_eq_nil_of_le (by omega)
    rw [hnil]
    simp

/-- The full writer run with no injected failures: every byte stream is
laid out as `KOf` fragment rows on top of the base store, and `Close`
returns success. -/
theorem writerRun_spec (s0 : Store) (p mt : GoStr) (cs : List (List Nat))
    (hwf : StoreWF s0) :
    writerRun s0 p mt cs
      = (runStore s0 p mt
           (midRows s0.nextId cs.flatten (KOf cs.flatten.length)),
         ⟨p, [], KOf cs.flatten.length, true, true⟩, none) := by
  have h0 : s0 = midStore s0 p mt [] 0 := by
    simp [midStore]
  have h1 : newWriter p = midWriter p [] 0 := by
    simp [newWriter, midWriter]
  have hfin : writeAllGo mt s0 (newWriter p) cs
      = (midStore s0 p mt cs.flatten (cs.flatten.length / fragmentSize),
         midWriter p cs.flatten (cs.flatten.length / fragmentSize)) := by
    conv_lhs => rw [h0, h1]
    rw [writeAllGo_mid s0 p mt hwf cs [] 0 (by simp)]
    simp only [List.nil_append]
  have hclose : writerRunClose s0 p mt cs
      = ⟨runStore s0 p mt
           (midRows s0.nextId cs.flatten (KOf cs.flatten.length)),
         ⟨p, [], KOf cs.flatten.length, true, true⟩, [], none⟩ := by
    unfold writerRunClose
    rw [hfin]
    dsimp only
    unfold sqClose
    rw [if_neg (by simp [midWriter])]
    rw [closeLoop_mid s0 p mt hwf cs.flatten
      (cs.flatten.length / fragmentSize) rfl]
  unfold writerRun
  rw [hclose]

/-- `KOf` is always positive: even an empty file stores one fragment
row. -/
theorem KOf_pos (L : Nat) : 0 < KOf L := by
  unfold KOf
  by_cases h0 : L = 0
  · simp [h0]
  · rw [if_neg h0]
    have hF := fragmentSize_pos
    refine Nat.lt_of_lt_of_le Nat.zero_lt_one ?_
    rw [Nat.le_div_iff_mul_le fragmentSize_pos, Nat.one_mul]
    omega

/-- The length of a stream fragment. -/
theorem fragChunk_length (D : List Nat) (i : Nat) :
    (fragChunk D i).length
      = min fragmentSize (D.length - i * fragmentSize) := by
  unfold fragChunk
  rw [List.length_take, List.length_drop]

/-- Every row of `midRows` carries the file id. -/
theorem midRows_fileId (fid : Nat) (D : List Nat) (k : Nat) :
    ∀ r ∈ midRows fid D k, r.fileId = fid := by
  intro r hr
  obtain ⟨i, _, rfl⟩ := List.mem_map.mp hr
  rfl

/-- The fragment rows of the fresh file in a completed `runStore` are
exactly the rows the writer committed: the base store's rows belong to
smaller file ids. -/
theorem fragRowsOf_runStore (s0 : Store) (p mt : GoStr) (hwf : StoreWF s0)
    (rows : List FragRow) (hrows : ∀ r ∈ rows, r.fileId = s0.nextId) :
    fragRowsOf (runStore s0 p mt rows) s0.nextId = rows := by
  unfold fragRowsOf runStore
  rw [List.filter_append]
  have h1 : s0.frags.filter (fun r => r.fileId == s0.nextId) = [] := by
    simp only [List.filter_eq_nil_iff]
    intro r hr
    have := hwf r hr
    simp
    omega
  have h2 : rows.filter (fun r => r.fileId == s0.nextId) = rows := by
    rw [List.filter_eq_self]
    intro r hr
    simp [hrows r hr]
  rw [h1, h2, List.nil_append]

/-- C2 amended: after a writer for a path performs its Writes and a
successful Close, the fragment rows of the file are exactly the `KOf L`
stream fragments: indices `0 .. KOf L - 1`, every fragment except the last
of length `fragmentSize`, the last of length `L mod fragmentSize` (or
`fragmentSize` when `L` is a nonzero multiple of it).  A zero-byte file
yields one fragment row, at index 0, of length 0 — not zero rows as
claimed. -/
theorem c2_amended (s0 : Store) (p mt : GoStr) (cs : List (List Nat))
    (hwf : StoreWF s0) :
    (writerRun s0 p mt cs).2.2 = none ∧
    fragRowsOf (writerRun s0 p mt cs).1 s0.nextId
      = midRows s0.nextId cs.flatten (KOf cs.flatten.length) ∧
    (fragRowsOf (writerRun s0 p mt cs).1 s0.nextId).map (fun r => r.index)
      = List.range (KOf cs.flatten.length) ∧
    (∀ r ∈ fragRowsOf (writerRun s0 p mt cs).1 s0.nextId,
       r.index + 1 < KOf cs.flatten.length →
       r.data.length = fragmentSize) ∧
    (∀ r ∈ fragRowsOf (writerRun s0 p mt cs).1 s0.nextId,
       r.index + 1 = KOf cs.flatten.length →
       r.data.length = if cs.flatten.length = 0 then 0
         else cs.flatten.length
           - (KOf cs.flatten.length - 1) * fragmentSize) := by
  rw [writerRun_spec s0 p mt cs hwf]
  dsimp only
  have hrows : fragRowsOf
      (runStore s0 p mt
        (midRows s0.nextId cs.flatten (KOf cs.flatten.length))) s0.nextId
      = midRows s0.nextId cs.flatten (KOf cs.flatten.length) :=
    fragRowsOf_runStore s0 p mt hwf _ (midRows_fileId _ _ _)
  rw [hrows]
  refine ⟨rfl, rfl, ?_, ?_, ?_⟩
  · unfold midRows
    rw [List.map_map]
    exact List.map_id _
  · intro r hr hlt
    obtain ⟨i, hi, rfl⟩ := List.mem_map.mp hr
    have hiK := List.mem_range.mp hi
    dsimp only at hlt ⊢
    rw [fragChunk_length]
    have hL0 : cs.flatten.length ≠ 0 := by
      intro h
      rw [h] at hlt
      have hK1 : KOf 0 = 1 := rfl
      rw [hK1] at hlt
      omega
    have hlast := KOf_pred_mul_lt cs.flatten.length
      (Nat.pos_iff_ne_zero.mpr hL0)
    have hmono : (i + 1) * fragmentSize
        ≤ (KOf cs.flatten.length - 1) * fragmentSize :=
      Nat.mul_le_mul_right _ (by omega)
    have h2 : (i + 1) * fragmentSize = i * fragmentSize + fragmentSize := by
      rw [Nat.add_mul, Nat.one_mul]
    omega
  · intro r hr heq
    obtain ⟨i, hi, rfl⟩ := List.mem_map.mp hr
    have hiK := List.mem_range.mp hi
    dsimp only at heq ⊢
    rw [fragChunk_length]
    by_cases hL0 : cs.flatten.length = 0
    · rw [if_pos hL0, hL0]
      have hK1 : KOf 0 = 1 := rfl
      rw [hL0] at heq
      rw [hK1] at heq
      have : i = 0 := by omega
      subst this
      simp
    · rw [if_neg hL0]
      have hge := KOf_mul_ge cs.flatten.length
      have hKpos := KOf_pos cs.flatten.length
      have hsub : (KOf cs.flatten.length - 1) * fragmentSize
          = KOf cs.flatten.length * fragmentSize - fragmentSize := by
        rw [Nat.sub_mul, Nat.one_mul]
      have hieq : i = KOf cs.flatten.length - 1 := by omega
      subst hieq
      omega

/-- Witness for C2 amended: a three-byte write on the empty store. -/
theorem c2_amended_witness :
    StoreWF emptyStore ∧
      (writerRun emptyStore ['a'] [] [[1, 2, 3]]).2.2 = none :=
  ⟨by intro r hr; simp [emptyStore] at hr,
   (c2_amended emptyStore ['a'] [] [[1, 2, 3]]
     (by intro r hr; simp [emptyStore] at hr)).1⟩

/-! ## C4: getTotalSize -/

/-- The maximal-index row of the writer's layout is the last one. -/
theorem maxIndexFrag_midRows (fid : Nat) (D : List Nat) :
    ∀ K, 0 < K →
      maxIndexFrag (midRows fid D K)
        = some ⟨fid, K - 1, fragChunk D (K - 1)⟩ := by
  intro K
  induction K with
  | zero => intro h; omega
  | succ n ih =>
    intro _
    by_cases hn : n = 0
    · subst hn
      rfl
    · rw [midRows_succ]
      unfold maxIndexFrag at ih ⊢
      rw [List.foldl_append, ih (Nat.pos_iff_ne_zero.mpr hn)]
      have hlt : n - 1 < n := by omega
      simp only [List.foldl_cons, List.foldl_nil, hlt, if_pos,
        Nat.add_sub_cancel]

/-- The `COALESCE(LENGTH(fragment), 0)` value on the writer's layout is
the length of the last fragment. -/
theorem lastFragLen_midRows (fid : Nat) (D : List Nat) (K : Nat)
    (h : 0 < K) :
    lastFragLen (midRows fid D K) = (fragChunk D (K - 1)).length := by
  unfold lastFragLen
  rw [maxIndexFrag_midRows fid D K h]

/-- On a completed writer layout the computed size is the stream
length. -/
theorem getTotalSize_layout (s0 : Store) (p mt : GoStr) (hwf : StoreWF s0)
    (D : List Nat) :
    getTotalSize (runStore s0 p mt (midRows s0.nextId D (KOf D.length))) p
      = D.length := by
  unfold getTotalSize
  rw [lookupId_runStore]
  dsimp only
  have hrows := fragRowsOf_runStore s0 p mt hwf _
    (midRows_fileId s0.nextId D (KOf D.length))
  rw [hrows]
  have hlenK : (midRows s0.nextId D (KOf D.length)).length
      = KOf D.length := by
    unfold midRows
    rw [List.length_map, List.length_range]
  rw [hlenK]
  have hKpos := KOf_pos D.length
  rw [if_neg (Nat.pos_iff_ne_zero.mp hKpos),
    lastFragLen_midRows _ _ _ hKpos, fragChunk_length]
  by_cases hL0 : D.length = 0
  · rw [hL0]
    have hK1 : KOf 0 = 1 := rfl
    rw [hL0] at *
    rw [hK1]
    simp
  · have hge := KOf_mul_ge D.length
    have hlast := KOf_pred_mul_lt D.length (Nat.pos_iff_ne_zero.mpr hL0)
    have hsub : (KOf D.length - 1) * fragmentSize
        = KOf D.length * fragmentSize - fragmentSize := by
      rw [Nat.sub_mul, Nat.one_mul]
    omega

/-- C4 amended: `getTotalSize` never fails.  With no fragment rows the
size is 0 whether or not the `file_metadata` row exists (the `NotFound`
branch of the Go code is dead under SQLite's aggregate semantics, since
`COUNT(*)` always yields a row); with fragment rows the size is
`(count-1)*fragmentSize + lastFragmentLength` with the length taken from
the highest-index fragment; and on any completed writer run the size is
exactly the number of bytes written. -/
theorem c4_amended :
    (∀ (s : Store) (p : GoStr), s.lookupId p = none →
       getTotalSize s p = 0) ∧
    (∀ (s : Store) (p : GoStr) (fid : Nat), s.lookupId p = some fid →
       fragRowsOf s fid = [] → getTotalSize s p = 0) ∧
    (∀ (s : Store) (p : GoStr) (fid : Nat), s.lookupId p = some fid →
       fragRowsOf s fid ≠ [] →
       getTotalSize s p
         = ((fragRowsOf s fid).length - 1) * fragmentSize
           + lastFragLen (fragRowsOf s fid)) ∧
    (∀ (s0 : Store) (p mt : GoStr) (cs : List (List Nat)), StoreWF s0 →
       getTotalSize (writerRun s0 p mt cs).1 p = cs.flatten.length) := by
  refine ⟨?_, ?_, ?_, ?_⟩
  · intro s p h
    unfold getTotalSize
    rw [h]
    rfl
  · intro s p fid h hrows
    unfold getTotalSize
    rw [h]
    dsimp only
    rw [hrows]
    rfl
  · intro s p fid h hrows
    unfold getTotalSize
    rw [h]
    dsimp only
    have hne : (fragRowsOf s fid).length ≠ 0 := by
      intro hz
      exact hrows (List.length_eq_zero.mp hz)
    simp only [if_neg hne]
  · intro s0 p mt cs hwf
    rw [writerRun_spec s0 p mt cs hwf]
    dsimp only
    exact getTotalSize_layout s0 p mt hwf cs.flatten

/-- C4 counterexample: for a path with no `file_metadata` row and no
fragment rows, the claim demands a `NotFound` failure, but the embedded
`getTotalSize` is total and returns 0 (the aggregate query always returns
a row, so the Go `sql.ErrNoRows` branch never runs). -/
theorem c4_counterexample :
    Store.pathExists emptyStore ['x'] = false ∧
    (emptyStore : Store).lookupId ['x'] = none ∧
    getTotalSize emptyStore ['x'] = 0 := by
  refine ⟨rfl, rfl, rfl⟩

/-- Witness for C4 amended: the writer-run size agreement at a concrete
two-byte write. -/
theorem c4_amended_witness :
    StoreWF emptyStore ∧
      getTotalSize (writerRun emptyStore ['a'] [] [[4, 5]]).1 ['a']
        = [[4, 5]].flatten.length :=
  ⟨by intro r hr; simp [emptyStore] at hr,
   c4_amended.2.2.2 emptyStore ['a'] [] [[4, 5]]
     (by intro r hr; simp [emptyStore] at hr)⟩

/-! ## C5: Write's return value on a commit failure -/

/-- One `writeFragment` step on a mid-run state whose oracle entry fails:
the file record is still ensured (and `fileCreated` set), but the buffer
and fragment index are untouched and the step reports failure. -/
theorem writeFragmentGo_mid_fail (s0 : Store) (p mt : GoStr)
    (D : List Nat) (j : Nat) (o : List Bool) (ho : o.headD true = false) :
    writeFragmentGo mt (midStore s0 p mt D j) (midWriter p D j) o
      = ⟨runStore s0 p mt (midRows s0.nextId D j),
         ⟨p, D.drop (j * fragmentSize), j, true, false⟩, o.tail, false⟩ := by
  have hstore : (if (j != 0) = true then midStore s0 p mt D j
        else createRecordActor (midStore s0 p mt D j) p mt)
      = runStore s0 p mt (midRows s0.nextId D j) := by
    by_cases hj0 : j = 0
    · subst hj0
      simp only [bne_self_eq_false, Bool.false_eq_true, if_false]
      simp only [midStore, reduceIte, midRows, List.range_zero, List.map_nil]
      exact createRecordActor_eq_runStore s0 p mt
    · have hb : (j != 0) = true := by simp [hj0]
      rw [if_pos hb]
      unfold midStore
      rw [if_neg hj0]
  unfold writeFragmentGo
  simp only [midWriter, ho]
  rw [hstore]

/-- The `Write` drain loop when the `k`-th commit attempt of the call (0
based) fails: the first `k` fragments are committed, then the loop stops,
returning `len(p) - len(buffer)` and the commit error. -/
theorem drainLoop_fail (s0 : Store) (p mt : GoStr) (hwf : StoreWF s0)
    (D : List Nat) (plen : Nat) (os : List Bool) :
    ∀ (k j : Nat), (j + k + 1) * fragmentSize ≤ D.length →
      drainLoop mt (midStore s0 p mt D j) (midWriter p D j)
          (List.replicate k true ++ false :: os) plen
        = ⟨runStore s0 p mt (midRows s0.nextId D (j + k)),
           ⟨p, D.drop ((j + k) * fragmentSize), j + k, true, false⟩, os,
           (plen : Int)
             - ((D.length - (j + k) * fragmentSize : Nat) : Int),
           some .commitFailed⟩ := by
  intro k
  induction k with
  | zero =>
    intro j hcnt
    rw [drainLoop]
    have h2 : (j + 0 + 1) * fragmentSize
        = j * fragmentSize + fragmentSize := by
      rw [Nat.add_zero, Nat.add_mul, Nat.one_mul]
    rw [dif_pos (by
      simp only [midWriter, List.length_drop]
      omega)]
    rw [List.replicate_zero, List.nil_append]
    rw [writeFragmentGo_mid_fail s0 p mt D j (false :: os) rfl]
    simp only [dif_neg, Bool.false_eq_true, not_false_eq_true,
      List.tail_cons, List.length_drop, Nat.add_zero]
  | succ k ih =>
    intro j hcnt
    rw [drainLoop]
    have h2 : (j + (k + 1) + 1) * fragmentSize
        = j * fragmentSize + (k + 1 + 1) * fragmentSize := by
      rw [← Nat.add_mul]
      ring_nf
    have h3 : fragmentSize ≤ (k + 1 + 1) * fragmentSize := by
      have := Nat.mul_le_mul_right fragmentSize
        (show 1 ≤ k + 1 + 1 by omega)
      rw [Nat.one_mul] at this
      exact this
    rw [dif_pos (by
      simp only [midWriter, List.length_drop]
      omega)]
    rw [List.replicate_succ, List.cons_append]
    rw [writeFragmentGo_mid s0 p mt hwf D j
      (true :: (List.replicate k true ++ false :: os)) rfl]
    simp only [dif_pos, List.tail_cons]
    have h4 : (j + 1) + k + 1 = j + (k + 1) + 1 := by omega
    have := ih (j + 1) (by rw [h4]; exact hcnt)
    have h5 : j + 1 + k = j + (k + 1) := by omega
    rw [h5] at this
    exact this

/-- `Write` on a writer carrying `b0` buffered bytes, when the
`(k+1)`-st commit attempt of the call fails: the first `k` fragments of
`b0 ++ c` are committed and the call returns
`len(c) - len(buffer) = k*fragmentSize - len(b0)` with the commit
error. -/
theorem sqWrite_fail_spec (s0 : Store) (p mt : GoStr) (hwf : StoreWF s0)
    (b0 c : List Nat) (k : Nat) (os : List Bool)
    (hb : b0.length < fragmentSize)
    (hk : (k + 1) * fragmentSize ≤ b0.length + c.length) :
    sqWrite mt s0 ⟨p, b0, 0, false, false⟩
        (List.replicate k true ++ false :: os) c
      = ⟨runStore s0 p mt (midRows s0.nextId (b0 ++ c) k),
         ⟨p, (b0 ++ c).drop (k * fragmentSize), k, true, false⟩, os,
         (k * fragmentSize : Int) - (b0.length : Int),
         some .commitFailed⟩ := by
  have hkle : k * fragmentSize ≤ b0.length + c.length := by
    have h2 : (k + 1) * fragmentSize = k * fragmentSize + fragmentSize := by
      rw [Nat.add_mul, Nat.one_mul]
    omega
  unfold sqWrite
  rw [if_neg (by simp)]
  dsimp only
  have hw : (⟨p, b0 ++ c, 0, false, false⟩ : SQLiteWriter)
      = midWriter p (b0 ++ c) 0 := by
    simp [midWriter]
  have hs : s0 = midStore s0 p mt (b0 ++ c) 0 := by
    simp [midStore]
  conv_lhs => rw [hw, hs]
  rw [drainLoop_fail s0 p mt hwf (b0 ++ c) c.length os k 0 (by
    rw [List.length_append]
    have h0 : (0 + k + 1) * fragmentSize = (k + 1) * fragmentSize := by
      rw [Nat.zero_add]
    omega)]
  simp only [Nat.zero_add, List.length_append]
  have hcast : ((b0.length + c.length - k * fragmentSize : Nat) : Int)
      = (b0.length : Int) + (c.length : Int)
        - (k * fragmentSize : Int) := by
    omega
  rw [hcast]
  have hring : (c.length : Int)
      - ((b0.length : Int) + (c.length : Int) - (k * fragmentSize : Int))
      = (k * fragmentSize : Int) - (b0.length : Int) := by ring
  rw [hring]

/-- C5 amended: when the `(k+1)`-st commit attempt of a `Write` call
fails (after `k` successful commits within the call), the call stops at
once and returns `len(p) - len(buffer)` together with the error.  That
value equals `k*fragmentSize - b` where `b` is the number of bytes left
in the buffer from earlier calls; it lies in `(0, len(p)]` whenever at
least one fragment was committed in the call, but equals `-b` — a
negative count, violating the claimed `0 ≤ n ≤ len(p)` — when the very
first commit of the call fails with a nonempty carried-over buffer. -/
theorem c5_amended (s0 : Store) (p mt : GoStr) (hwf : StoreWF s0)
    (b0 c : List Nat) (k : Nat) (os : List Bool)
    (hb : b0.length < fragmentSize)
    (hk : (k + 1) * fragmentSize ≤ b0.length + c.length) :
    sqWrite mt s0 ⟨p, b0, 0, false, false⟩
        (List.replicate k true ++ false :: os) c
      = ⟨runStore s0 p mt (midRows s0.nextId (b0 ++ c) k),
         ⟨p, (b0 ++ c).drop (k * fragmentSize), k, true, false⟩, os,
         (k * fragmentSize : Int) - (b0.length : Int),
         some .commitFailed⟩ ∧
    (1 ≤ k → 0 < (k * fragmentSize : Int) - (b0.length : Int) ∧
       (k * fragmentSize : Int) - (b0.length : Int) ≤ (c.length : Int)) ∧
    (k = 0 → (k * fragmentSize : Int) - (b0.length : Int)
       = -(b0.length : Int)) := by
  have hkle : k * fragmentSize ≤ b0.length + c.length := by
    have h2 : (k + 1) * fragmentSize = k * fragmentSize + fragmentSize := by
      rw [Nat.add_mul, Nat.one_mul]
    omega
  refine ⟨sqWrite_fail_spec s0 p mt hwf b0 c k os hb hk, ?_, ?_⟩
  · intro hk1
    have hF := fragmentSize_pos
    have hmono : fragmentSize ≤ k * fragmentSize := by
      have := Nat.mul_le_mul_right fragmentSize hk1
      rw [Nat.one_mul] at this
      exact this
    have h2 : (k + 1) * fragmentSize = k * fragmentSize + fragmentSize := by
      rw [Nat.add_mul, Nat.one_mul]
    constructor <;> omega
  · intro hk0
    subst hk0
    simp

/-- C5 counterexample: write 5 bytes (buffered, success), then write one
full fragment with the commit failing.  The claim demands a returned count
between 0 and `len(input)`; the call returns `-5`. -/
theorem c5_counterexample :
    (sqWrite [] emptyStore (newWriter ['a']) [] (List.replicate 5 9)).err
      = none ∧
    (sqWrite []
        (sqWrite [] emptyStore (newWriter ['a']) []
          (List.replicate 5 9)).store
        (sqWrite [] emptyStore (newWriter ['a']) []
          (List.replicate 5 9)).writer
        [false] (List.replicate fragmentSize 0)).n = -5 ∧
    (sqWrite []
        (sqWrite [] emptyStore (newWriter ['a']) []
          (List.replicate 5 9)).store
        (sqWrite [] emptyStore (newWriter ['a']) []
          (List.replicate 5 9)).writer
        [false] (List.replicate fragmentSize 0)).err
      = some .commitFailed := by
  have h1 : sqWrite [] emptyStore (newWriter ['a']) []
        (List.replicate 5 9)
      = ⟨emptyStore, ⟨['a'], List.replicate 5 9, 0, false, false⟩, [], 5,
         none⟩ := by
    unfold sqWrite newWriter
    rw [if_neg (by simp)]
    rw [drainLoop]
    rw [dif_neg (by simp [fragmentSize])]
    simp
  have h2 : sqWrite [] emptyStore
        ⟨['a'], List.replicate 5 9, 0, false, false⟩ [false]
        (List.replicate fragmentSize 0)
      = ⟨runStore emptyStore ['a'] []
           (midRows emptyStore.nextId
             (List.replicate 5 9 ++ List.replicate fragmentSize 0) 0),
         ⟨['a'], (List.replicate 5 9
             ++ List.replicate fragmentSize 0).drop (0 * fragmentSize),
           0, true, false⟩, [],
         ((0 : Nat) * fragmentSize : Int)
           - ((List.replicate 5 9).length : Int),
         some .commitFailed⟩ :=
    (sqWrite_fail_spec emptyStore ['a'] []
      (by intro r hr; simp [emptyStore] at hr)
      (List.replicate 5 9) (List.replicate fragmentSize 0) 0 []
      (by simp [fragmentSize])
      (by simp))
  rw [h1]
  dsimp only
  rw [h2]
  refine ⟨rfl, by simp, rfl⟩

/-- Witness for C5 amended: a failing first commit with two carried-over
bytes returns `-2`. -/
theorem c5_amended_witness :
    StoreWF emptyStore ∧
    (List.replicate 2 9).length < fragmentSize ∧
    (0 + 1) * fragmentSize
      ≤ (List.replicate 2 9).length
        + (List.replicate fragmentSize 0).length ∧
    ((0 : Nat) = 0 →
      ((0 : Nat) * fragmentSize : Int) - ((List.replicate 2 9).length : Int)
        = -(((List.replicate 2 9).length : Int))) :=
  ⟨by intro r hr; simp [emptyStore] at hr,
   by simp [fragmentSize],
   by simp,
   (c5_amended emptyStore ['b'] []
     (by intro r hr; simp [emptyStore] at hr)
     (List.replicate 2 9) (List.replicate fragmentSize 0) 0 []
     (by simp [fragmentSize]) (by simp)).2.2⟩

/-! ## C1: the write/read round trip -/

/-- The fragment lookup on the writer's layout: row `i` exists exactly for
`i < K` and holds stream fragment `i`. -/
theorem find_midRows (fid : Nat) (D : List Nat) :
    ∀ (K i : Nat),
      (midRows fid D K).find? (fun r => r.fileId == fid && r.index == i)
        = if i < K then some ⟨fid, i, fragChunk D i⟩ else none := by
  intro K
  induction K with
  | zero =>
    intro i
    simp [midRows]
  | succ n ih =>
    intro i
    rw [midRows_succ, List.find?_append, ih i]
    by_cases hi : i < n
    · rw [if_pos hi, if_pos (by omega)]
      rfl
    · rw [if_neg hi]
      by_cases hin : i = n
      · subst hin
        rw [if_pos (by omega)]
        simp
      · rw [if_neg (by omega)]
        simp
        omega

/-- `findFrag` on a completed run store. -/
theorem findFrag_runStore (s0 : Store) (p mt : GoStr) (hwf : StoreWF s0)
    (D : List Nat) (K i : Nat) :
    findFrag (runStore s0 p mt (midRows s0.nextId D K)) p i
      = if i < K then some (fragChunk D i) else none := by
  unfold findFrag
  rw [lookupId_runStore]
  dsimp only
  have hfrags : (runStore s0 p mt (midRows s0.nextId D K)).frags
      = s0.frags ++ midRows s0.nextId D K := rfl
  rw [hfrags, List.find?_append]
  have h1 : s0.frags.find?
      (fun r => r.fileId == s0.nextId && r.index == i) = none := by
    rw [List.find?_eq_none]
    intro r hr
    have := hwf r hr
    simp
    omega
  rw [h1, Option.none_or, find_midRows]
  by_cases hi : i < K
  · rw [if_pos hi, if_pos hi]
    rfl
  · rw [if_neg hi, if_neg hi]
    rfl

/-- The body of the round-trip argument: `readLoop` on a store whose
fragment lookups agree with a stream `D`, from a handle whose cached size
is `D.length`, reads exactly the next
`min (len(p) - accumulated) (size - offset)` bytes of the stream. -/
theorem readLoop_spec (s : Store) (p : GoStr) (D : List Nat)
    (hfind : ∀ i, findFrag s p i
      = if i < KOf D.length then some (fragChunk D i) else none) :
    ∀ (n : Nat) (f : SQLiteFile) (plen : Nat) (acc : List Nat),
      f.path = p → f.size = D.length → f.offset < D.length →
      acc.length < plen → D.length - f.offset ≤ n →
      readLoop s [] f plen acc
        = ⟨{ f with offset := (f.offset
              + min (plen - acc.length) (D.length - f.offset) : Nat) },
           acc ++ (D.drop f.offset).take
              (min (plen - acc.length) (D.length - f.offset)), none⟩ := by
  intro n
  induction n with
  | zero =>
    intro f plen acc hp hsz hoff hacc hn
    omega
  | succ n ih =>
    intro f plen acc hp hsz hoff hacc hn
    have hF := fragmentSize_pos
    have hdm := Nat.div_add_mod f.offset fragmentSize
    have hmod : f.offset % fragmentSize < fragmentSize :=
      Nat.mod_lt _ fragmentSize_pos
    have hiK : f.offset / fragmentSize < KOf D.length := by
      rw [Nat.div_lt_iff_lt_mul fragmentSize_pos]
      exact Nat.lt_of_lt_of_le hoff (KOf_mul_ge D.length)
    rw [readLoop, if_neg (by omega), if_neg (by simp), hp,
      hfind (f.offset / fragmentSize), if_pos hiK]
    dsimp only
    set o := f.offset with ho
    set internal := o % fragmentSize with hinternal
    set readLength := min (fragmentSize - internal) (plen - acc.length)
      with hrl
    have hchunk : (fragChunk D (o / fragmentSize)).drop internal
        = (D.drop o).take (fragmentSize - internal) := by
      unfold fragChunk
      rw [List.drop_take, List.drop_drop]
      have hcomm : o / fragmentSize * fragmentSize
          = fragmentSize * (o / fragmentSize) := Nat.mul_comm _ _
      have : o / fragmentSize * fragmentSize + internal = o := by
        rw [hinternal]
        omega
      rw [this]
    have hfragment : ((fragChunk D (o / fragmentSize)).drop
          internal).take readLength
        = (D.drop o).take readLength := by
      rw [hchunk, List.take_take, Nat.min_eq_left (Nat.min_le_left _ _)]
    rw [hfragment]
    have hflen : ((D.drop o).take readLength).length
        = min readLength (D.length - o) := by
      rw [List.length_take, List.length_drop]
    have hrl_pos : 0 < readLength := by
      rw [hrl]
      omega
    have hbr : min ((D.drop o).take readLength).length (plen - acc.length)
        = min readLength (D.length - o) := by
      rw [hflen]
      have : readLength ≤ plen - acc.length := Nat.min_le_right _ _
      omega
    rw [hbr]
    set bytesRead := min readLength (D.length - o) with hbrdef
    have hbr_pos : 0 < bytesRead := by
      rw [hbrdef]
      omega
    have htake_br : ((D.drop o).take readLength).take bytesRead
        = (D.drop o).take bytesRead := by
      rw [List.take_take]
      congr 1
      omega
    rw [dif_neg (by omega)]
    rw [htake_br]
    by_cases hfull : acc.length + bytesRead = plen
    · rw [if_pos (by
        rw [List.length_append, List.length_take, List.length_drop]
        rw [hbrdef] at hfull ⊢
        omega)]
      have hm : min (plen - acc.length) (D.length - o) = bytesRead := by
        rw [hbrdef, hrl]
        omega
      rw [hm]
    · rw [if_neg (by
        rw [List.length_append, List.length_take, List.length_drop]
        rw [hbrdef] at hfull ⊢
        omega)]
      by_cases hend : o + bytesRead = D.length
      · rw [readLoop]
        dsimp only
        rw [if_pos (by omega)]
        rw [if_neg (by
          rw [List.length_append, List.length_take, List.length_drop]
          omega)]
        have hm : min (plen - acc.length) (D.length - o) = bytesRead := by
          rw [hbrdef, hrl] at *
          omega
        rw [hm, hend]
      · have hlt : o + bytesRead < D.length := by
          rw [hbrdef] at *
          omega
        simp only [List.tail_nil]
        rw [ih ⟨p, o + bytesRead, f.size, f.isDir⟩ plen
          ((acc ++ (D.drop o).take bytesRead)) rfl hsz hlt
          (by
            rw [List.length_append, List.length_take, List.length_drop]
            omega)
          (by dsimp only; omega)]
        dsimp only
        have hacc2len : (acc ++ (D.drop o).take bytesRead).length
            = acc.length + bytesRead := by
          rw [List.length_append, List.length_take, List.length_drop]
          omega
        have hm' : min (plen - (acc.length + bytesRead))
              (D.length - (o + bytesRead))
            = min (plen - acc.length) (D.length - o) - bytesRead := by
          rw [hbrdef, hrl] at *
          omega
        have hoffeq : o + bytesRead
              + (min (plen - acc.length) (D.length - o) - bytesRead)
            = o + min (plen - acc.length) (D.length - o) := by
          rw [hbrdef, hrl] at *
          omega
        have hbytes : acc ++ (D.drop o).take bytesRead
              ++ (D.drop (o + bytesRead)).take
                (min (plen - acc.length) (D.length - o) - bytesRead)
            = acc ++ (D.drop o).take
                (min (plen - acc.length) (D.length - o)) := by
          rw [List.append_assoc]
          congr 1
          have hdd : D.drop (o + bytesRead) = (D.drop o).drop bytesRead := by
            rw [List.drop_drop]
          rw [hdd, ← List.take_add]
          congr 1
          rw [hbrdef, hrl] at *
          omega
        rw [hacc2len, hm', hoffeq, hbytes]

/-- One `Read` call on a good handle below end of file: it returns the
next `min (len(p)) (size - offset)` bytes of the stream and advances the
offset by that amount. -/
theorem sqRead_spec (s : Store) (p : GoStr) (D : List Nat)
    (hfind : ∀ i, findFrag s p i
      = if i < KOf D.length then some (fragChunk D i) else none)
    (f : SQLiteFile) (plen : Nat) (hp : f.path = p)
    (hsz : f.size = D.length) (hdir : f.isDir = false) (hplen : 0 < plen)
    (hoff : f.offset < D.length) :
    sqRead s [] f plen
      = ⟨{ f with offset := (f.offset
            + min plen (D.length - f.offset) : Nat) },
         (D.drop f.offset).take (min plen (D.length - f.offset)), none⟩ := by
  unfold sqRead
  rw [if_neg (by simp [hdir]), if_neg (by omega), if_neg (by omega)]
  rw [readLoop_spec s p D hfind (D.length - f.offset + 1) f plen [] hp hsz
    hoff (by simpa using hplen) (by omega)]
  simp

/-- One `Read` call at or past end of file returns `(0, EOF)`. -/
theorem sqRead_eof (s : Store) (f : SQLiteFile) (plen : Nat)
    (hdir : f.isDir = false) (hplen : 0 < plen)
    (hoff : f.size ≤ f.offset) :
    sqRead s [] f plen = ⟨f, [], some .eof⟩ := by
  unfold sqRead
  rw [if_neg (by simp [hdir]), if_neg (by omega), if_pos hoff]

/-- Reading to completion with any nonzero buffer returns the remainder of
the stream and ends in a clean `EOF`. -/
theorem readToEnd_spec (s : Store) (p : GoStr) (D : List Nat)
    (hfind : ∀ i, findFrag s p i
      = if i < KOf D.length then some (fragChunk D i) else none)
    (bufLen : Nat) (hbuf : 0 < bufLen) :
    ∀ (fuel : Nat) (f : SQLiteFile), f.path = p → f.size = D.length →
      f.isDir = false → f.offset ≤ D.length →
      D.length - f.offset < fuel →
      (readToEnd s f bufLen fuel).1 = D.drop f.offset ∧
      (readToEnd s f bufLen fuel).2.2 = true := by
  intro fuel
  induction fuel with
  | zero =>
    intro f _ _ _ _ hfuel
    omega
  | succ fuel ih =>
    intro f hp hsz hdir hoff hfuel
    have hunfold : readToEnd s f bufLen (fuel + 1)
        = (match (sqRead s [] f bufLen).err with
           | some .eof => ([], (sqRead s [] f bufLen).file, true)
           | some .storage =>
             ((sqRead s [] f bufLen).bytes, (sqRead s [] f bufLen).file,
              false)
           | none =>
             ((sqRead s [] f bufLen).bytes
                ++ (readToEnd s (sqRead s [] f bufLen).file bufLen
                     fuel).1,
              (readToEnd s (sqRead s [] f bufLen).file bufLen fuel).2.1,
              (readToEnd s (sqRead s [] f bufLen).file bufLen
                 fuel).2.2)) := rfl
    by_cases hend : D.length ≤ f.offset
    · have hr := sqRead_eof s f bufLen hdir hbuf (by omega)
      rw [hunfold, hr]
      constructor
      · exact (List.drop_of_length_le (by omega)).symm
      · rfl
    · have hoff' : f.offset < D.length := by omega
      have hr := sqRead_spec s p D hfind f bufLen hp hsz hdir hbuf hoff'
      rw [hunfold, hr]
      dsimp only
      set m := min bufLen (D.length - f.offset) with hm
      have hm1 : 1 ≤ m := by
        rw [hm]
        omega
      obtain ⟨ihb, ihe⟩ := ih ⟨f.path, f.offset + m, f.size, f.isDir⟩
        (by simpa using hp) (by simpa using hsz) (by simpa using hdir)
        (by dsimp only; omega) (by dsimp only; omega)
      constructor
      · rw [ihb]
        dsimp only
        exact List.drop_take_append_drop D f.offset m
      · exact ihe

/-- C1: the round trip.  For every base store, file path and byte stream
(written as any sequence of `Write` calls followed by `Close`), opening
the file and reading it to completion from offset 0 — looping on partial
reads with any nonzero buffer — returns exactly the written bytes and a
clean `EOF`. -/
theorem c1_roundtrip (s0 : Store) (p mt : GoStr) (cs : List (List Nat))
    (bufLen : Nat) (hwf : StoreWF s0) (hshape : isDirPath p = false)
    (hbuf : 0 < bufLen) :
    (readToEnd (writerRun s0 p mt cs).1
        (newSQLiteFile (writerRun s0 p mt cs).1 p) bufLen
        (cs.flatten.length + 1)).1 = cs.flatten ∧
    (readToEnd (writerRun s0 p mt cs).1
        (newSQLiteFile (writerRun s0 p mt cs).1 p) bufLen
        (cs.flatten.length + 1)).2.2 = true := by
  rw [writerRun_spec s0 p mt cs hwf]
  dsimp only
  have hfind : ∀ i, findFrag
      (runStore s0 p mt
        (midRows s0.nextId cs.flatten (KOf cs.flatten.length))) p i
      = if i < KOf cs.flatten.length then some (fragChunk cs.flatten i)
        else none :=
    findFrag_runStore s0 p mt hwf cs.flatten (KOf cs.flatten.length)
  have hf : newSQLiteFile
      (runStore s0 p mt
        (midRows s0.nextId cs.flatten (KOf cs.flatten.length))) p
      = ⟨p, 0, cs.flatten.length, false⟩ := by
    unfold newSQLiteFile
    rw [hshape]
    simp only [Bool.false_eq_true, if_false]
    rw [getTotalSize_layout s0 p mt hwf cs.flatten]
  rw [hf]
  obtain ⟨hb, he⟩ := readToEnd_spec
    (runStore s0 p mt
      (midRows s0.nextId cs.flatten (KOf cs.flatten.length)))
    p cs.flatten hfind bufLen hbuf (cs.flatten.length + 1)
    ⟨p, 0, cs.flatten.length, false⟩ rfl rfl rfl (by simp) (by simp)
  rw [hb, he]
  simp

/-- Witness for C1 at the three-byte stream `[1, 2, 3]` written in one
`Write` call and read back with a two-byte buffer. -/
theorem c1_roundtrip_witness :
    StoreWF emptyStore ∧ isDirPath ['a'] = false ∧ (0 : Nat) < 2 ∧
    (readToEnd (writerRun emptyStore ['a'] [] [[1, 2, 3]]).1
        (newSQLiteFile (writerRun emptyStore ['a'] [] [[1, 2, 3]]).1 ['a'])
        2 ([[1, 2, 3]].flatten.length + 1)).1 = [[1, 2, 3]].flatten :=
  ⟨by intro r hr; simp [emptyStore] at hr, by decide, by decide,
   (c1_roundtrip emptyStore ['a'] [] [[1, 2, 3]] 2
     (by intro r hr; simp [emptyStore] at hr) (by decide) (by decide)).1⟩

/-! ## C9: the cached size -/

/-- `readLoop` never touches the handle's cached size: the loop bound is
the size cached at open time throughout. -/
theorem readLoop_size_frame (s : Store) :
    ∀ (n : Nat) (errs : List Bool) (f : SQLiteFile) (plen : Nat)
      (acc : List Nat), f.size - f.offset ≤ n →
      (readLoop s errs f plen acc).file.size = f.size := by
  intro n
  induction n with
  | zero =>
    intro errs f plen acc hn
    rw [readLoop]
    repeat' split
    any_goals rfl
    all_goals omega
  | succ n ih =>
    intro errs f plen acc hn
    have hF := fragmentSize_pos
    have hdm := Nat.div_add_mod f.offset fragmentSize
    have hmod : f.offset % fragmentSize < fragmentSize :=
      Nat.mod_lt _ fragmentSize_pos
    have hmul : (f.offset / fragmentSize + 1) * fragmentSize
        = f.offset / fragmentSize * fragmentSize + fragmentSize := by
      rw [Nat.add_mul, Nat.one_mul]
    have hcomm : f.offset / fragmentSize * fragmentSize
        = fragmentSize * (f.offset / fragmentSize) := Nat.mul_comm _ _
    rw [readLoop]
    repeat' split
    any_goals rfl
    all_goals dsimp only
    all_goals split
    any_goals split
    any_goals rfl
    all_goals (try rename_i hz _)
    all_goals
      (try simp only [inf_eq_min, List.length_take, List.length_drop] at hz)
    all_goals apply ih
    all_goals dsimp only
    all_goals
      (try simp only [inf_eq_min, List.length_take, List.length_drop])
    all_goals omega

/-- Demonstration stores for the stale-size behaviour of `Read`: the same
file before and after more bytes are stored for it. -/
def growPath : GoStr := ['g']

def growStore1 : Store := ⟨[⟨0, growPath, fileLit⟩], [⟨0, 0, [7]⟩], 1⟩

def growStore2 : Store := ⟨[⟨0, growPath, fileLit⟩], [⟨0, 0, [7, 8, 9]⟩], 1⟩

/-- C9, counterexample to "a Read never returns bytes appended to the file
after the handle was opened": a handle opened when the file held one byte
(cached size 1) reads against the grown store and returns all three bytes
of the enlarged fragment, because the per-iteration fragment query reads
the current database and the copy length is not clamped by the cached
size. -/
theorem c9_counterexample :
    (newSQLiteFile growStore1 growPath).size = 1 ∧
    (sqRead growStore2 [] (newSQLiteFile growStore1 growPath) 3).bytes
      = [7, 8, 9] ∧
    (sqRead growStore2 [] (newSQLiteFile growStore1 growPath) 3).err
      = none := by
  have hf : newSQLiteFile growStore1 growPath
      = ⟨growPath, 0, 1, false⟩ := by decide
  have hr : sqRead growStore2 [] (⟨growPath, 0, 1, false⟩ : SQLiteFile) 3
      = readLoop growStore2 [] ⟨growPath, 0, 1, false⟩ 3 [] := rfl
  have hl : readLoop growStore2 [] (⟨growPath, 0, 1, false⟩ : SQLiteFile) 3 []
      = ⟨⟨growPath, 3, 1, false⟩, [7, 8, 9], none⟩ := by
    rw [readLoop]
    decide
  refine ⟨by decide, ?_, ?_⟩ <;> rw [hf, hr, hl]

/-- C9, amended: the EOF boundary used by `Read` is the size cached when
the handle was opened and is never refreshed — `Read` leaves the cached
size unchanged, `Seek` with whence `End` computes the new offset from the
current total size of the stored file but also leaves the cached size
unchanged, and a `Read` issued at or past the cached size returns
`(0, EOF)` without touching the store.  (The claim's final consequence —
that a `Read` can never return bytes appended after open — does not
follow and is refuted separately: below the cached size the fragment
query reads the current database.) -/
theorem c9_amended (s : Store) (errs : List Bool) (f : SQLiteFile)
    (plen : Nat) (off : Int)
    (hnn : 0 ≤ (getTotalSize s f.path : Int) + off) :
    (sqRead s errs f plen).file.size = f.size ∧
    sqSeek s f off 2 =
      .ok ({ f with offset := ((getTotalSize s f.path : Int) + off).toNat },
           (getTotalSize s f.path : Int) + off) ∧
    (f.isDir = false → 0 < plen → f.size ≤ f.offset →
      sqRead s errs f plen = ⟨f, [], some RErr.eof⟩) := by
  refine ⟨?_, ?_, ?_⟩
  · unfold sqRead
    split
    · rfl
    · split
      · rfl
      · split
        · rfl
        · exact readLoop_size_frame s (f.size - f.offset) errs f plen []
            (Nat.le_refl _)
  · unfold sqSeek
    norm_num
    intro h
    exact absurd h (by omega)
  · intro hd hp hle
    unfold sqRead
    rw [if_neg (by simp [hd]), if_neg (by omega), if_pos hle]

/-- Witness for the amended C9 at a concrete handle on the empty store. -/
theorem c9_amended_witness :
    (sqRead emptyStore [] ⟨growPath, 0, 0, false⟩ 1).file.size
      = (⟨growPath, 0, 0, false⟩ : SQLiteFile).size ∧
    sqSeek emptyStore ⟨growPath, 0, 0, false⟩ 0 2 =
      .ok ({ (⟨growPath, 0, 0, false⟩ : SQLiteFile) with
               offset := ((getTotalSize emptyStore growPath : Int) + 0).toNat },
           (getTotalSize emptyStore growPath : Int) + 0) ∧
    ((⟨growPath, 0, 0, false⟩ : SQLiteFile).isDir = false → 0 < 1 →
      (⟨growPath, 0, 0, false⟩ : SQLiteFile).size
        ≤ (⟨growPath, 0, 0, false⟩ : SQLiteFile).offset →
      sqRead emptyStore [] ⟨growPath, 0, 0, false⟩ 1
        = ⟨⟨growPath, 0, 0, false⟩, [], some RErr.eof⟩) :=
  c9_amended emptyStore [] ⟨growPath, 0, 0, false⟩ 1 0 (by decide)

/-- The first component of `strings.SplitN(p, "/", 2)` never ends in a
slash (it contains no slash at all, being the text before the first
one). -/
theorem endsSlash_splitFirst (p : GoStr) :
    endsSlash (splitFirst p).1 = false := by
  induction p with
  | nil => rfl
  | cons c rest ih =>
    rw [splitFirst]
    by_cases hc : c == '/'
    · rw [if_pos hc]; rfl
    · rw [if_neg hc]
      dsimp only
      cases hr : (splitFirst rest).1 with
      | nil =>
        simp only [endsSlash, List.getLast?]
        simpa using hc
      | cons d q =>
        rw [hr] at ih
        simpa [endsSlash, List.getLast?_cons_cons] using ih

/-- The dedup key of `ReadDir` (`childPath` in the Go loop), as a function
of the listing mode, the directory path, the entry's name and its
directory flag. -/
def childKey (root : Bool) (dirPath cn : GoStr) (d : Bool) : GoStr :=
  let base := if root then cn else dirPath ++ cn
  if d && !(endsSlash base) then base ++ ['/'] else base

/-- The entry one `ReadDir` row contributes (the Go loop body's
`fileInfo`): the cleaned child name, the fragment-length sum for plain
files, and the subdirectory flag. -/
def rowEntry (s : Store) (root : Bool) (dirPath p : GoStr) : GoFileInfo :=
  let rel := if root then p else trimPre dirPath p
  let cn := (splitFirst rel).1
  let isSubDir := (splitFirst rel).2.isSome || endsSlash p
  ⟨if isSubDir && endsSlash cn then trimSuffixSlash cn else cn,
   if !isSubDir then sumFragLen s p else 0,
   isSubDir⟩

/-- The dedup key one `ReadDir` row produces (`childPath` in the Go
loop). -/
def rowKey (root : Bool) (dirPath p : GoStr) : GoStr :=
  let rel := if root then p else trimPre dirPath p
  childKey root dirPath (splitFirst rel).1
    ((splitFirst rel).2.isSome || endsSlash p)

/-- One step of the `ReadDir` row loop, phrased with the per-row key and
entry. -/
theorem readDirLoop_cons (s : Store) (root : Bool) (dirPath : GoStr)
    (n : Int) (row : FileMeta) (rest : List FileMeta) (seen : List GoStr)
    (entries : List GoFileInfo) :
    readDirLoop s root dirPath n (row :: rest) seen entries =
      if !root && row.path == dirPath then
        readDirLoop s root dirPath n rest seen entries
      else if seen.contains (rowKey root dirPath row.path) then
        readDirLoop s root dirPath n rest seen entries
      else
        let entries2 := entries ++ [rowEntry s root dirPath row.path]
        if 0 < n ∧ n ≤ (entries2.length : Int) then entries2
        else readDirLoop s root dirPath n rest
          (rowKey root dirPath row.path :: seen) entries2 := rfl

/-- The key of the entry a row contributes is that row's dedup key: the
name-cleaning step is the identity on keys because a first path segment
never ends in a slash. -/
theorem rowEntry_key (s : Store) (root : Bool) (dirPath p : GoStr) :
    childKey root dirPath (rowEntry s root dirPath p).name
      (rowEntry s root dirPath p).isDir = rowKey root dirPath p := by
  simp [rowEntry, rowKey, endsSlash_splitFirst]

/-- The `ReadDir` row loop keeps the dedup keys of the produced entries
pairwise distinct: every entry's key is recorded in `seen` and no row whose
key is in `seen` adds an entry. -/
theorem readDirLoop_keys (s : Store) (root : Bool) (dirPath : GoStr)
    (n : Int) :
    ∀ (rows : List FileMeta) (seen : List GoStr)
      (entries : List GoFileInfo),
      (∀ e ∈ entries, childKey root dirPath e.name e.isDir ∈ seen) →
      (entries.map (fun e => childKey root dirPath e.name e.isDir)).Nodup →
      ((readDirLoop s root dirPath n rows seen entries).map
        (fun e => childKey root dirPath e.name e.isDir)).Nodup := by
  intro rows
  induction rows with
  | nil =>
    intro seen entries h1 h2
    simpa only [readDirLoop] using h2
  | cons row rest ih =>
    intro seen entries h1 h2
    rw [readDirLoop_cons]
    by_cases hskip : (!root && row.path == dirPath) = true
    · rw [if_pos hskip]; exact ih seen entries h1 h2
    · rw [if_neg hskip]
      by_cases hseen : seen.contains (rowKey root dirPath row.path) = true
      · rw [if_pos hseen]; exact ih seen entries h1 h2
      · rw [if_neg hseen]
        dsimp only
        have hnotin : rowKey root dirPath row.path ∉
            entries.map (fun e => childKey root dirPath e.name e.isDir) := by
          intro hm
          rcases List.mem_map.mp hm with ⟨e, he, hke⟩
          have hks := h1 e he
          rw [hke] at hks
          exact absurd hks (by simpa using hseen)
        have h2' : ((entries ++ [rowEntry s root dirPath row.path]).map
            (fun e => childKey root dirPath e.name e.isDir)).Nodup := by
          rw [List.map_append]
          simp only [List.map_cons, List.map_nil]
          rw [List.nodup_append]
          refine ⟨h2, List.nodup_singleton _, ?_⟩
          intro k hk hk1
          simp only [List.mem_singleton] at hk1
          rw [hk1, rowEntry_key] at hk
          exact hnotin hk
        by_cases hlim : 0 < n ∧ n ≤
            (((entries ++ [rowEntry s root dirPath row.path]).length : Int))
        · rw [if_pos hlim]; exact h2'
        · rw [if_neg hlim]
          refine ih _ _ ?_ h2'
          intro e he
          rcases List.mem_append.mp he with he | he
          · exact List.mem_cons_of_mem _ (h1 e he)
          · have heq : e = rowEntry s root dirPath row.path := by
              simpa using he
            rw [heq, rowEntry_key]
            exact List.mem_cons_self _ _

/-- The demonstration store of the listing-correctness example: the two
files `a.txt` and `b/c.txt` and no fragment rows. -/
def listDemoStore : Store :=
  ⟨[⟨0, ['a', '.', 't', 'x', 't'], fileLit⟩,
    ⟨1, ['b', '/', 'c', '.', 't', 'x', 't'], fileLit⟩], [], 2⟩

/-- A successful `ReadDir` returns exactly what the row loop produced (the
empty-listing existence check only decides between that value and an
error). -/
theorem sqReadDir_ok_shape (es entries : List GoFileInfo) (ex : Bool)
    (h : (if es.isEmpty then
            (if ex then Except.ok es else Except.error DirErr.notFound)
          else (Except.ok es : Except DirErr (List GoFileInfo)))
         = .ok entries) :
    entries = es := by
  by_cases h1 : es.isEmpty <;> by_cases h2 : ex = true <;>
    simp [h1, h2] at h <;> exact h.symm

/-- C8, amended: every successful `ReadDir` listing has pairwise-distinct
`(name, isDir)` entries — the loop dedups on the derived `childPath`,
which is a function of the listing mode, the directory path, the entry
name and the directory flag, so a directory with many descendants appears
once — and listing the root of the store `{a.txt, b/c.txt}` yields exactly
the entries `a.txt` (file) and `b` (directory).  (The claimed skip of
empty or `/` child names does not exist in the code and is refuted
separately: a stored bare `/` path produces an entry named `""`.) -/
theorem c8_amended (s : Store) (f : SQLiteFile) (n : Int)
    (entries : List GoFileInfo) (h : sqReadDir s f n = .ok entries) :
    (entries.map (fun e => (e.name, e.isDir))).Nodup ∧
    sqReadDir listDemoStore ⟨['/'], 0, 0, true⟩ (-1) =
      .ok [⟨['a', '.', 't', 'x', 't'], 0, false⟩, ⟨['b'], 0, true⟩] := by
  refine ⟨?_, by rfl⟩
  unfold sqReadDir at h
  by_cases hd : (!f.isDir) = true
  · rw [if_pos hd] at h; cases h
  · rw [if_neg hd] at h
    dsimp only at h
    have hok := sqReadDir_ok_shape _ _ _ h
    have hkeys := readDirLoop_keys s (f.path == [] || f.path == ['/'])
      (if endsSlash f.path then f.path else f.path ++ ['/']) n
      (if f.path == [] || f.path == ['/'] then s.metas
       else s.metas.filter
         (fun m => (if endsSlash f.path then f.path
             else f.path ++ ['/']).isPrefixOf m.path
           && !(m.path == (if endsSlash f.path then f.path
             else f.path ++ ['/']))))
      [] [] (by intro e he; cases he) List.nodup_nil
    rw [hok]
    exact List.Nodup.of_map
      (fun pr : GoStr × Bool => childKey (f.path == [] || f.path == ['/'])
        (if endsSlash f.path then f.path else f.path ++ ['/']) pr.1 pr.2)
      (by simpa [Function.comp] using hkeys)

/-- Witness for the amended C8 at the `{a.txt, b/c.txt}` store itself. -/
theorem c8_amended_witness :
    (([⟨['a', '.', 't', 'x', 't'], 0, false⟩, ⟨['b'], 0, true⟩]
        : List GoFileInfo).map (fun e => (e.name, e.isDir))).Nodup ∧
    sqReadDir listDemoStore ⟨['/'], 0, 0, true⟩ (-1) =
      .ok [⟨['a', '.', 't', 'x', 't'], 0, false⟩, ⟨['b'], 0, true⟩] :=
  c8_amended listDemoStore ⟨['/'], 0, 0, true⟩ (-1)
    [⟨['a', '.', 't', 'x', 't'], 0, false⟩, ⟨['b'], 0, true⟩] (by rfl)

/-- C8, counterexample to the claimed skip of empty and `/` child names
and to per-name uniqueness: a stored bare `/` path yields a root entry
whose name is empty (no such skip exists in the code), and storing both a
file `b` and a file `b/c` yields two root entries both named `b` (the
dedup key `childPath` distinguishes `b` from `b/`). -/
theorem c8_counterexample :
    sqReadDir ⟨[⟨0, ['/'], fileLit⟩], [], 1⟩ ⟨['/'], 0, 0, true⟩ (-1)
      = .ok [⟨[], 0, true⟩] ∧
    sqReadDir ⟨[⟨0, ['b'], fileLit⟩, ⟨1, ['b', '/', 'c'], fileLit⟩], [], 2⟩
        ⟨['/'], 0, 0, true⟩ (-1)
      = .ok [⟨['b'], 0, false⟩, ⟨['b'], 0, true⟩] :=
  ⟨rfl, rfl⟩
